import Mathlib

/-!
# soundplay: a shallow embedding of `main.go`

The program is glue around the operating system, an HTTP client and the beep
decoders.  Everything outside `main.go` (file system, network, decoders, audio
device, Unicode tables) is an oracle collected in `World`; every function of
`main.go` is a Lean function that returns its Go result together with the list
of externally visible actions it performed, in program order (`Event`).

Go strings are modelled by their sequence of Unicode code points (`GoString`),
Go `error` values by their message.
-/

namespace Soundplay

/-- A Go string, as the list of its code points. -/
abbrev GoString := List Char

deriving instance DecidableEq for Except

/-! ## Standard-library string and path helpers used by `main.go` -/

/-- Go `strings.HasPrefix(s, prefix)`. -/
def stringsHasPrefix (s pre : GoString) : Bool :=
  pre.isPrefixOf s

/-- Go `strings.Index(s, substr)` scanning from offset `i`: the index of the
first occurrence of `substr`, or `-1`. -/
def stringsIndexFrom (substr : GoString) : GoString → Nat → Int
  | [], i => if substr = [] then (i : Int) else -1
  | c :: cs, i =>
    if substr.isPrefixOf (c :: cs) then (i : Int) else stringsIndexFrom substr cs (i + 1)

/-- Go `strings.Index(s, substr)`. -/
def stringsIndex (s substr : GoString) : Int :=
  stringsIndexFrom substr s 0

/-- The ASCII branch of Go `unicode.ToLower`: `A`..`Z` are shifted by 32. -/
def asciiLower (c : Char) : Char :=
  if 65 ≤ c.toNat ∧ c.toNat ≤ 90 then Char.ofNat (c.toNat + 32) else c

/-- Go `unicode.ToLower`, with the table for runes outside ASCII supplied by
the caller. -/
def unicodeToLower (table : Char → Char) (c : Char) : Char :=
  if c.toNat < 128 then asciiLower c else table c

/-- Go `strings.ToLower`: an ASCII-only string takes the byte loop, any other
string is mapped rune by rune through `unicode.ToLower`. -/
def stringsToLower (table : Char → Char) (s : GoString) : GoString :=
  if s.all (fun c => decide (c.toNat < 128)) then s.map asciiLower
  else s.map (unicodeToLower table)

/-- The loop of Go `filepath.Ext`, run over the reversed path: `acc` is the
part of the path already passed (to the right of the cursor). -/
def extScan : List Char → List Char → GoString
  | [], _ => []
  | c :: before, acc =>
    if c = '/' then []
    else if c = '.' then c :: acc
    else extScan before (c :: acc)

/-- Go `filepath.Ext(path)` (Unix separator): the suffix starting at the last
dot of the last path element, or the empty string. -/
def filepathExt (path : GoString) : GoString :=
  extScan path.reverse []

/-- Go `os.IsPathSeparator` on Unix. -/
def isPathSeparator (c : Char) : Bool :=
  c = '/'

/-- The inner loop of the `..` case of Go `filepath.Clean`: starting from
`out.w = w` it steps back while `out.w > dotdot` and the byte at `out.w` is not
a separator; the result is the new `out.w`. -/
def cleanBacktrack (buf : List Char) (dotdot : Nat) : Nat → Nat
  | 0 => 0
  | w + 1 =>
    if w + 1 > dotdot ∧ !isPathSeparator (buf.getD (w + 1) '/') then
      cleanBacktrack buf dotdot w
    else w + 1

/-- The main loop of Go `filepath.Clean` (`for r < n`), with `out` the written
part of the lazy buffer (`out.w = out.length`).  Each round consumes at least
one byte of `path`, so `n - r` rounds of fuel are enough. -/
def cleanLoop (path : List Char) (n : Nat) (rooted : Bool) :
    Nat → Nat → List Char → Nat → List Char
  | 0, _, out, _ => out
  | fuel + 1, r, out, dotdot =>
    if r < n then
      if isPathSeparator (path.getD r '/') then
        -- empty path element
        cleanLoop path n rooted fuel (r + 1) out dotdot
      else if path.getD r '/' = '.' ∧
          (r + 1 = n ∨ isPathSeparator (path.getD (r + 1) '/')) then
        -- . element
        cleanLoop path n rooted fuel (r + 1) out dotdot
      else if path.getD r '/' = '.' ∧ path.getD (r + 1) '/' = '.' ∧
          (r + 2 = n ∨ isPathSeparator (path.getD (r + 2) '/')) then
        -- .. element: remove to last separator
        if out.length > dotdot then
          cleanLoop path n rooted fuel (r + 2)
            (out.take (cleanBacktrack out dotdot (out.length - 1))) dotdot
        else if !rooted then
          let out1 := if out.length > 0 then out ++ ['/'] else out
          let out2 := out1 ++ ['.', '.']
          cleanLoop path n rooted fuel (r + 2) out2 out2.length
        else
          cleanLoop path n rooted fuel (r + 2) out dotdot
      else
        -- real path element: add slash if needed, copy element
        let out1 :=
          if (rooted ∧ out.length ≠ 1) ∨ (!rooted ∧ out.length ≠ 0) then out ++ ['/']
          else out
        let elem := (path.drop r).takeWhile (fun c => !isPathSeparator c)
        cleanLoop path n rooted fuel (r + elem.length) (out1 ++ elem) dotdot
    else out

/-- Go `filepath.Clean(path)` on Unix (no volume name, `/` separator). -/
def filepathClean (path : GoString) : GoString :=
  if path = [] then ['.']
  else
    let rooted := isPathSeparator (path.getD 0 ' ')
    let n := path.length
    let out :=
      if rooted then cleanLoop path n rooted n 1 ['/'] 1
      else cleanLoop path n rooted n 0 [] 0
    if out.length = 0 then ['.'] else out

/-- Go `strings.Join(elems, sep)`. -/
def stringsJoin (elems : List GoString) (sep : GoString) : GoString :=
  sep.intercalate elems

/-- Go `filepath.Join(elem...)` on Unix: leading empty elements are ignored,
the rest is joined with `/` and cleaned; all empty gives the empty string. -/
def filepathJoin : List GoString → GoString
  | [] => []
  | e :: es =>
    if e ≠ [] then filepathClean (stringsJoin (e :: es) ['/']) else filepathJoin es

/-! ## The outside world -/

/-- The `io.ReadSeeker` values that reach `decode`. -/
inductive Reader
  /-- An `*os.File` returned by `os.Open`, named by its descriptor. -/
  | file (fd : Nat)
  /-- A `*bytesReadCloser` over an in-memory buffer. -/
  | bytesReadCloser (data : List Nat)
  /-- Any other `io.ReadSeeker`, one without a `Close` method. -/
  | plain (id : Nat)
  deriving DecidableEq, Repr

/-- The type assertion `reader.(io.ReadCloser)`: `*os.File` and
`*bytesReadCloser` both have a `Close` method. -/
def Reader.isReadCloser : Reader → Bool
  | .file _ => true
  | .bytesReadCloser _ => true
  | .plain _ => false

/-- `newBytesReadCloser(data)`. -/
def newBytesReadCloser (data : List Nat) : Reader :=
  .bytesReadCloser data

/-- The four beep decoders. -/
inductive Decoder
  | mp3
  | vorbis
  | wav
  | flac
  deriving DecidableEq, Repr

/-- The argument a decoder receives: the reader itself as an `io.ReadCloser`,
the reader wrapped by `io.NopCloser`, or the reader as a plain `io.Reader`. -/
inductive DecoderArg
  | readCloser (r : Reader)
  | nopCloser (r : Reader)
  | reader (r : Reader)
  deriving DecidableEq, Repr

/-- A `beep.Format`. -/
structure Format where
  sampleRate : Int
  numChannels : Int
  precision : Int
  deriving DecidableEq, Repr

/-- A `beep.StreamSeekCloser` produced by a decoder, named by an identifier. -/
structure Streamer where
  id : Nat
  deriving DecidableEq, Repr

/-- A successful `(beep.StreamSeekCloser, beep.Format)` pair. -/
abbrev Audio := Streamer × Format

/-- The fields of an `*http.Response` the program reads; `body` is what
`io.ReadAll(resp.Body)` yields. -/
structure Response where
  statusCode : Int
  status : GoString
  body : Except GoString (List Nat)
  deriving DecidableEq

/-- Everything the program obtains from outside `main.go`. -/
structure World where
  /-- The table of `unicode.ToLower` outside ASCII. -/
  lowerTable : Char → Char
  /-- The result of `os.UserHomeDir()`. -/
  userHomeDir : Except GoString GoString
  /-- The result of `os.Open(path)`: a descriptor or the error message. -/
  osOpen : GoString → Except GoString Nat
  /-- The result of `client.Get(url)`. -/
  httpGet : GoString → Except GoString Response
  /-- The result of `mp3.Decode`, `vorbis.Decode`, `wav.Decode`, `flac.Decode`. -/
  decoder : Decoder → DecoderArg → Except GoString Audio
  /-- Whether that decoder call itself calls `Close` on the reader it was given
  before it returns (the WAV and FLAC decoders of beep do so when they fail). -/
  decoderCloses : Decoder → DecoderArg → Bool
  /-- Whether the `beep.Callback` behind the streamer ever sends on `done`. -/
  playbackCompletes : Streamer → Bool

/-- The ways `flag.Parse` fails on a command line (it then reports the
failure with the usage on the error stream and exits with status 2). -/
inductive FlagError
  /-- Reported as "bad flag syntax". -/
  | badSyntax (arg : GoString)
  /-- Reported as "flag provided but not defined". -/
  | notDefined (name : GoString)
  /-- Reported as "invalid boolean value". -/
  | invalidBool (value name : GoString)
  deriving DecidableEq, Repr

/-- The externally visible actions, and the entries into `play` and `decode`. -/
inductive Event
  | stdout (text : GoString)
  | stderr (text : GoString)
  | flagFailure (e : FlagError)
  | callPlay (source : GoString)
  | callDecode (reader : Reader) (ext : GoString)
  | userHomeDir
  | osOpen (path : GoString)
  | httpGet (url : GoString) (timeoutSeconds : Nat)
  | readAll
  | bodyClose
  | decoderCall (d : Decoder) (arg : DecoderArg)
  | readerClose (reader : Reader)
  | speakerInit (sampleRate : Int) (bufferSize : Int)
  | speakerPlay (s : Streamer)
  | waitDone
  | streamerClose (s : Streamer)
  deriving DecidableEq, Repr

/-- What a Go function returning `(beep.StreamSeekCloser, beep.Format, error)`
yields, with the actions it performed. -/
abbrev Opened := Except GoString Audio × List Event

/-! ## `main.go` -/

/-- The constant `version`. -/
def version : GoString := "1.0.0".toList

/-- The stream a `Close` by a decoder reaches: the reader behind an
`io.ReadCloser`, nothing behind an `io.NopCloser`, and behind a plain
`io.Reader` the reader if it has a `Close` method (the decoder finds it by the
type assertion `r.(io.Closer)`). -/
def DecoderArg.closable : DecoderArg → Option Reader
  | .readCloser r => some r
  | .nopCloser _ => none
  | .reader r => if r.isReadCloser then some r else none

/-- A call of `mp3.Decode`, `vorbis.Decode`, `wav.Decode` or `flac.Decode`:
its result, and as actions the invocation followed by the `Close` of the
stream when the decoder closes it itself. -/
def callDecoder (w : World) (d : Decoder) (arg : DecoderArg) : Opened :=
  (w.decoder d arg,
    .decoderCall d arg ::
      (if w.decoderCloses d arg then
        match arg.closable with
        | some r => [.readerClose r]
        | none => []
      else []))

/-- The function `decode`. -/
def decode (w : World) (reader : Reader) (ext : GoString) : Opened :=
  if ext = ".mp3".toList then
    let rc := if reader.isReadCloser then DecoderArg.readCloser reader
              else DecoderArg.nopCloser reader
    ((callDecoder w .mp3 rc).1, .callDecode reader ext :: (callDecoder w .mp3 rc).2)
  else if ext = ".ogg".toList then
    let rc := if reader.isReadCloser then DecoderArg.readCloser reader
              else DecoderArg.nopCloser reader
    ((callDecoder w .vorbis rc).1, .callDecode reader ext :: (callDecoder w .vorbis rc).2)
  else if ext = ".wav".toList then
    ((callDecoder w .wav (.reader reader)).1,
      .callDecode reader ext :: (callDecoder w .wav (.reader reader)).2)
  else if ext = ".flac".toList then
    ((callDecoder w .flac (.reader reader)).1,
      .callDecode reader ext :: (callDecoder w .flac (.reader reader)).2)
  else
    (.error ("unsupported audio format: ".toList ++ ext ++
        " (supported: .mp3, .ogg, .wav, .flac)".toList),
      [.callDecode reader ext])

/-- The function `openFile`. -/
def openFile (w : World) (path : GoString) : Opened :=
  -- Expand ~ to home directory
  let expanded : Except GoString GoString × List Event :=
    if stringsHasPrefix path "~/".toList then
      match w.userHomeDir with
      | .error err =>
        (.error ("failed to get home directory: ".toList ++ err), [.userHomeDir])
      | .ok home => (.ok (filepathJoin [home, path.drop 2]), [.userHomeDir])
    else (.ok path, [])
  match expanded with
  | (.error err, t) => (.error err, t)
  | (.ok path, t) =>
    -- Open file
    match w.osOpen path with
    | .error err => (.error ("failed to open file: ".toList ++ err), t ++ [.osOpen path])
    | .ok fd =>
      -- Get file extension
      let ext := stringsToLower w.lowerTable (filepathExt path)
      -- Decode based on extension
      match decode w (.file fd) ext with
      | (.error err, td) =>
        (.error err, t ++ [.osOpen path] ++ td ++ [.readerClose (.file fd)])
      | (.ok audio, td) => (.ok audio, t ++ [.osOpen path] ++ td)

/-- The constant `http.StatusOK`. -/
def statusOK : Int := 200

/-- The function `openURL`; the deferred `resp.Body.Close()` is the last
action on every path that obtained a response. -/
def openURL (w : World) (url : GoString) : Opened :=
  -- Fetch the URL
  match w.httpGet url with
  | .error err => (.error ("failed to fetch URL: ".toList ++ err), [.httpGet url 30])
  | .ok resp =>
    if resp.statusCode ≠ statusOK then
      (.error ("HTTP error: ".toList ++ resp.status), [.httpGet url 30, .bodyClose])
    else
      -- Read entire content into memory
      match resp.body with
      | .error err =>
        (.error ("failed to read response: ".toList ++ err),
          [.httpGet url 30, .readAll, .bodyClose])
      | .ok data =>
        -- Get extension from URL
        let ext := stringsToLower w.lowerTable (filepathExt url)
        -- Remove query parameters from extension
        let idx := stringsIndex ext "?".toList
        let ext := if idx ≠ -1 then ext.take idx.toNat else ext
        let reader := newBytesReadCloser data
        -- Decode based on extension
        match decode w reader ext with
        | (.error err, td) =>
          (.error err, [.httpGet url 30, .readAll] ++ td ++ [.readerClose reader, .bodyClose])
        | (.ok audio, td) => (.ok audio, [.httpGet url 30, .readAll] ++ td ++ [.bodyClose])

/-- The function `openAudio`. -/
def openAudio (w : World) (source : GoString) : Opened :=
  if stringsHasPrefix source "http://".toList || stringsHasPrefix source "https://".toList then
    openURL w source
  else
    openFile w source

/-- A signed 64-bit value from its mathematical value (two's complement). -/
def wrapInt64 (x : Int) : Int :=
  (x + 2 ^ 63) % 2 ^ 64 - 2 ^ 63

/-- The method `beep.SampleRate.N(d)`: `int(d * time.Duration(sr) / time.Second)`
in `int64` arithmetic. -/
def sampleRateN (sr : Int) (d : Int) : Int :=
  Int.tdiv (wrapInt64 (d * sr)) 1000000000

/-- How a call of `play` ends: it returns an `error` (`none` for `nil`), or it
waits on `done` for ever. -/
inductive PlayResult
  | returned (err : Option GoString)
  | blocked
  deriving DecidableEq, Repr

/-- The function `play`; the deferred `streamer.Close()` runs when `play`
returns after the `defer` statement was reached. -/
def play (w : World) (source : GoString) : PlayResult × List Event :=
  -- Open the audio source
  match openAudio w source with
  | (.error err, t) =>
    (.returned (some ("failed to open audio: ".toList ++ err)), .callPlay source :: t)
  | (.ok (streamer, format), t) =>
    let t1 := .callPlay source :: t ++
      [.speakerInit format.sampleRate (sampleRateN format.sampleRate (1000000000 / 10)),
       .speakerPlay streamer, .waitDone]
    -- Wait for playback to finish
    if w.playbackCompletes streamer then
      (.returned none, t1 ++ [.streamerClose streamer])
    else
      (.blocked, t1)

/-- The four boolean flags `main` defines, with the values `flag.Parse` left
in them. -/
structure Flags where
  h : Bool
  help : Bool
  v : Bool
  version : Bool
  deriving DecidableEq, Repr

/-- The flag values before parsing: every default is `false`. -/
def Flags.defaults : Flags :=
  ⟨false, false, false, false⟩

/-- Go `strconv.ParseBool`. -/
def strconvParseBool (s : GoString) : Option Bool :=
  if s ∈ ["1".toList, "t".toList, "T".toList, "TRUE".toList, "true".toList, "True".toList] then
    some true
  else if s ∈ ["0".toList, "f".toList, "F".toList, "FALSE".toList, "false".toList,
      "False".toList] then
    some false
  else none

/-- Looking a name up among the flags `main` defined and storing a value. -/
def Flags.set (f : Flags) (name : GoString) (b : Bool) : Option Flags :=
  if name = "h".toList then some { f with h := b }
  else if name = "help".toList then some { f with help := b }
  else if name = "v".toList then some { f with v := b }
  else if name = "version".toList then some { f with version := b }
  else none

/-- Go `flag.Parse()` over the arguments after the program name, for a flag
set holding only boolean flags: `parseOne` repeated until the first non-flag
argument, a `--` terminator, or a failure.  Yields the flag values and the
remaining arguments (`flag.Args()`). -/
def flagParse : List GoString → Flags → Except FlagError (Flags × List GoString)
  | [], f => .ok (f, [])
  | s :: rest, f =>
    if s.length < 2 ∨ s.getD 0 ' ' ≠ '-' then .ok (f, s :: rest)
    else
      let numMinuses := if s.getD 1 ' ' = '-' then 2 else 1
      if numMinuses = 2 ∧ s.length = 2 then .ok (f, rest)
      else
        let name := s.drop numMinuses
        if name.length = 0 ∨ name.getD 0 ' ' = '-' ∨ name.getD 0 ' ' = '=' then
          .error (.badSyntax s)
        else
          -- it is a flag; an argument follows the first = after the first byte
          let tl := name.drop 1
          let hasValue := decide ('=' ∈ tl)
          let value := (tl.dropWhile (fun c => c ≠ '=')).drop 1
          let name := if hasValue then name.take 1 ++ tl.takeWhile (fun c => c ≠ '=') else name
          if f.set name true = none then .error (.notDefined name)
          else if hasValue then
            match strconvParseBool value with
            | none => .error (.invalidBool value name)
            | some b =>
              match f.set name b with
              | none => .error (.notDefined name)
              | some f1 => flagParse rest f1
          else
            match f.set name true with
            | none => .error (.notDefined name)
            | some f1 => flagParse rest f1

/-- The function `showHelp`: one write to standard output per `fmt.Println`. -/
def showHelp : List Event :=
  [.stdout "soundplay - Multiplatform CLI app to play sounds\n".toList,
   .stdout "\n".toList,
   .stdout "Usage:\n".toList,
   .stdout "  soundplay <file-or-url>\n".toList,
   .stdout "\n".toList,
   .stdout "Options:\n".toList,
   .stdout "  -h, --help     Show this help message\n".toList,
   .stdout "  -v, --version  Show version information\n".toList,
   .stdout "\n".toList,
   .stdout "Supported formats:\n".toList,
   .stdout "  MP3, OGG (Vorbis), WAV, FLAC\n".toList,
   .stdout "\n".toList,
   .stdout "Examples:\n".toList,
   .stdout "  soundplay music.mp3\n".toList,
   .stdout "  soundplay ~/sounds/beep.wav\n".toList,
   .stdout "  soundplay https://example.com/sound.ogg\n".toList]

/-- The lines `main` writes to the error stream when no source is given. -/
def noSourceMessage : List Event :=
  [.stderr "Error: No audio source specified\n".toList,
   .stderr "Usage: soundplay <file-or-url>\n".toList,
   .stderr "Try \x27soundplay -h\x27 for more information.\n".toList]

/-- The function `main` from the statement after `flag.Parse()` on: `flags`
are the parsed flag values and `args` is `flag.Args()`.  The result is the
exit status of the process (`none` when it never exits) and its actions. -/
def mainBody (w : World) (flags : Flags) (args : List GoString) : Option Nat × List Event :=
  -- Handle flags
  if flags.h || flags.help then (some 0, showHelp)
  else if flags.v || flags.version then
    (some 0, [.stdout ("soundplay version ".toList ++ version ++ "\n".toList)])
  else
    -- Check for audio source argument
    match args with
    | [] => (some 1, noSourceMessage)
    | source :: _ =>
      -- Play the audio
      match play w source with
      | (.returned (some err), t) =>
        (some 1, t ++ [.stderr ("Error: ".toList ++ err ++ "\n".toList)])
      | (.returned none, t) => (some 0, t)
      | (.blocked, t) => (none, t)

/-- The function `main` on the command-line arguments after the program name. -/
def main (w : World) (argv : List GoString) : Option Nat × List Event :=
  match flagParse argv Flags.defaults with
  | .error e => (some 2, [.flagFailure e])
  | .ok (flags, args) => mainBody w flags args

/-! ## Vocabulary of the properties -/

/-- The dispatch table of the format dispatcher: the extension of each decoder. -/
def dispatchExt : Decoder → GoString
  | .mp3 => ".mp3".toList
  | .vorbis => ".ogg".toList
  | .wav => ".wav".toList
  | .flac => ".flac".toList

/-- The four supported extensions. -/
def supportedExts : List GoString :=
  [".mp3".toList, ".ogg".toList, ".wav".toList, ".flac".toList]

/-- The argument the adaptation rule gives decoder `d`: the MP3 and Vorbis
decoders get the reader as a closable reader when it has a `Close` method and
wrapped in a no-op closer otherwise, the WAV and FLAC decoders get it as a
plain reader. -/
def adaptedArg (d : Decoder) (r : Reader) : DecoderArg :=
  match d with
  | .mp3 => if r.isReadCloser then .readCloser r else .nopCloser r
  | .vorbis => if r.isReadCloser then .readCloser r else .nopCloser r
  | .wav => .reader r
  | .flac => .reader r

/-- The `Close` the decoder call for `d` on reader `r` performs itself, if any. -/
def decoderClose (w : World) (d : Decoder) (r : Reader) : List Event :=
  if w.decoderCloses d (adaptedArg d r) = true ∧ r.isReadCloser = true then [.readerClose r]
  else []

/-- The message of the unsupported-format error for extension `ext`. -/
def unsupportedMessage (ext : GoString) : GoString :=
  "unsupported audio format: ".toList ++ ext ++ " (supported: .mp3, .ogg, .wav, .flac)".toList

/-- The part of `openFile` from `os.Open` on, for the expanded path `p` and
the actions `t` performed before it. -/
def openFileAt (w : World) (t : List Event) (p : GoString) : Opened :=
  match w.osOpen p with
  | .error err => (.error ("failed to open file: ".toList ++ err), t ++ [.osOpen p])
  | .ok fd =>
    match decode w (.file fd) (stringsToLower w.lowerTable (filepathExt p)) with
    | (.error err, td) =>
      (.error err, t ++ [.osOpen p] ++ td ++ [.readerClose (.file fd)])
    | (.ok audio, td) => (.ok audio, t ++ [.osOpen p] ++ td)

/-- The ASCII upper-case form of a character. -/
def asciiUpper (c : Char) : Char :=
  if 97 ≤ c.toNat ∧ c.toNat ≤ 122 then Char.ofNat (c.toNat - 32) else c

/-- Whether `s` is an upper/lower-case variant of `t`: the same length, and
each character of `s` is the one of `t` or its ASCII upper-case form. -/
def caseVariant : GoString → GoString → Bool
  | [], [] => true
  | c :: cs, d :: ds => (c = d || c = asciiUpper d) && caseVariant cs ds
  | _, _ => false

/-- An invocation of one of the four decoders. -/
def Event.isDecoderCall : Event → Bool
  | .decoderCall _ _ => true
  | _ => false

/-- An entry into `decode`. -/
def Event.isCallDecode : Event → Bool
  | .callDecode _ _ => true
  | _ => false

/-- An entry into `play`. -/
def Event.isCallPlay : Event → Bool
  | .callPlay _ => true
  | _ => false

/-- A `Close` on the stream `r` that underlies a decoder. -/
def Event.isReaderClose (r : Reader) : Event → Bool
  | .readerClose r1 => r1 = r
  | _ => false

/-- A `Close` on a decoded stream. -/
def Event.isStreamerClose : Event → Bool
  | .streamerClose _ => true
  | _ => false

/-- A write to standard output. -/
def Event.isStdout : Event → Bool
  | .stdout _ => true
  | _ => false

/-- A call of `os.Open`. -/
def Event.isOsOpen : Event → Bool
  | .osOpen _ => true
  | _ => false

/-- The actions `openAudio` can perform: everything except writing to the
standard streams, entering `play`, driving the speaker and closing a decoded
stream. -/
def Event.isOpenStage : Event → Bool
  | .callDecode _ _ => true
  | .userHomeDir => true
  | .osOpen _ => true
  | .httpGet _ _ => true
  | .readAll => true
  | .bodyClose => true
  | .decoderCall _ _ => true
  | .readerClose _ => true
  | _ => false

/-- The extensions with which `decode` was entered, in order. -/
def decodeExts (t : List Event) : List GoString :=
  t.filterMap fun e =>
    match e with
    | .callDecode _ ext => some ext
    | _ => none

/-- The extension `openURL` computes before it calls `decode`. -/
def urlExt (table : Char → Char) (url : GoString) : GoString :=
  let ext := stringsToLower table (filepathExt url)
  if stringsIndex ext "?".toList ≠ -1 then ext.take (stringsIndex ext "?".toList).toNat
  else ext

/-- The path component of an `http` or `https` URL with the query string (and
fragment) removed: what follows the authority, up to the first `?` or `#`. -/
def urlPathComponent (url : GoString) : GoString :=
  let afterScheme :=
    if stringsHasPrefix url "http://".toList then url.drop 7
    else if stringsHasPrefix url "https://".toList then url.drop 8
    else url
  let afterAuthority := afterScheme.dropWhile (fun c => c ≠ '/' ∧ c ≠ '?' ∧ c ≠ '#')
  afterAuthority.takeWhile (fun c => c ≠ '?' ∧ c ≠ '#')

/-- The extension the dispatcher contract describes for a URL: the lowered
file extension of the URL path component with any query string removed. -/
def specURLExt (table : Char → Char) (url : GoString) : GoString :=
  stringsToLower table (filepathExt (urlPathComponent url))

/-- A world for concrete runs: the home directory is `/home/u`, four local
files exist, one URL answers 404 and the others on the same host 200, only the
WAV decoder accepts its input, the FLAC decoder closes its reader when it
fails (as the WAV and FLAC decoders of beep do), and playback completes. -/
def sampleWorld : World where
  lowerTable := id
  userHomeDir := .ok "/home/u".toList
  osOpen := fun p =>
    if p = "/home/u/sounds/beep.wav".toList then .ok 3
    else if p = "song.MP3".toList then .ok 4
    else if p = "notes.xyz".toList then .ok 5
    else if p = "broken.flac".toList then .ok 6
    else .error ("open ".toList ++ p ++ ": no such file or directory".toList)
  httpGet := fun url =>
    if url = "https://example.com/missing.ogg".toList then
      .ok ⟨404, "404 Not Found".toList, .ok []⟩
    else if stringsHasPrefix url "https://example.com/".toList then
      .ok ⟨200, "200 OK".toList, .ok [79, 103, 103, 83]⟩
    else .error "dial tcp: lookup failed".toList
  decoder := fun d _ =>
    match d with
    | .wav => .ok (⟨1⟩, ⟨44100, 2, 2⟩)
    | .mp3 => .error "mp3: invalid header".toList
    | .vorbis => .error "ogg/vorbis: invalid header".toList
    | .flac => .error "flac: invalid signature".toList
  decoderCloses := fun d _ =>
    match d with
    | .wav => false
    | .mp3 => false
    | .vorbis => false
    | .flac => true
  playbackCompletes := fun _ => true

/-- The sample world with no resolvable home directory. -/
def homelessWorld : World :=
  { sampleWorld with userHomeDir := .error "$HOME is not defined".toList }

/-! ## Properties of the path helpers -/

/-- A path element that starts on a byte other than a separator is not empty. -/
theorem element_length_pos (path : List Char) (r : Nat) (hr : r < path.length)
    (hsep : ¬ isPathSeparator (path.getD r '/') = true) :
    1 ≤ ((path.drop r).takeWhile (fun c => !isPathSeparator c)).length := by
  have hd : path.drop r = path[r] :: path.drop (r + 1) := List.drop_eq_getElem_cons hr
  have hg : path.getD r '/' = path[r] := by
    simp [List.getD, List.getElem?_eq_getElem hr]
  rw [hg] at hsep
  rw [hd, List.takeWhile_cons]
  simp [hsep]

/-- An element copied from position `r` ends at or before the next separator. -/
theorem element_length_le (path : List Char) :
    ∀ (j r : Nat), r ≤ j → j < path.length → isPathSeparator (path.getD j '/') = true →
      r + ((path.drop r).takeWhile (fun c => !isPathSeparator c)).length ≤ j := by
  intro j r hrj hj hsep
  induction' h : j - r with m ih generalizing r
  · have : r = j := by omega
    subst this
    have hd : path.drop r = path[r] :: path.drop (r + 1) := List.drop_eq_getElem_cons hj
    have hg : path.getD r '/' = path[r] := by
      simp [List.getD, List.getElem?_eq_getElem hj]
    rw [hg] at hsep
    rw [hd, List.takeWhile_cons]
    simp [hsep]
  · have hr : r < path.length := by omega
    have hd : path.drop r = path[r] :: path.drop (r + 1) := List.drop_eq_getElem_cons hr
    rw [hd, List.takeWhile_cons]
    split
    · have := ih (r + 1) (by omega) (by omega)
      simp only [List.length_cons]
      omega
    · simp
      omega

/-- The loop of `filepath.Clean` with the cursor past the end returns the
buffer. -/
theorem cleanLoop_done (path : List Char) (n : Nat) (rooted : Bool) (fuel r : Nat)
    (out : List Char) (dd : Nat) (h : n ≤ r) :
    cleanLoop path n rooted fuel r out dd = out := by
  cases fuel with
  | zero => rfl
  | succ fuel =>
    have : ¬ r < n := by omega
    simp [cleanLoop, this]

/-- The loop of `filepath.Clean`, started at or before the last element of a
path whose last element is neither empty nor `.` nor `..`, ends with that
element appended to the buffer. -/
theorem cleanLoop_last_element (path : List Char) (rooted : Bool) (k : Nat)
    (hk : k < path.length)
    (hsepk : k = 0 ∨ isPathSeparator (path.getD (k - 1) '/') = true)
    (hlast : ∀ i, k ≤ i → i < path.length → ¬ isPathSeparator (path.getD i '/') = true)
    (hdot : ¬ (path.getD k '/' = '.' ∧ k + 1 = path.length))
    (hdotdot : ¬ (path.getD k '/' = '.' ∧ path.getD (k + 1) '/' = '.' ∧
      k + 2 = path.length)) :
    ∀ (fuel r : Nat) (out : List Char) (dd : Nat), r ≤ k → path.length - r ≤ fuel →
      ∃ X, cleanLoop path path.length rooted fuel r out dd = X ++ path.drop k := by
  intro fuel
  induction fuel with
  | zero =>
    intro r out dd hr hf
    omega
  | succ fuel ih =>
    intro r out dd hr hf
    have hrn : r < path.length := by omega
    unfold cleanLoop
    simp only [hrn, if_true]
    by_cases hrk : r = k
    · subst hrk
      have h1 : ¬ isPathSeparator (path.getD r '/') = true := hlast r (le_refl _) hrn
      have h2 : ¬ (path.getD r '/' = '.' ∧
          (r + 1 = path.length ∨ isPathSeparator (path.getD (r + 1) '/') = true)) := by
        rintro ⟨hd, hn | hs⟩
        · exact hdot ⟨hd, hn⟩
        · by_cases hlt : r + 1 < path.length
          · exact hlast (r + 1) (by omega) hlt hs
          · exact hdot ⟨hd, by omega⟩
      have h3 : ¬ (path.getD r '/' = '.' ∧ path.getD (r + 1) '/' = '.' ∧
          (r + 2 = path.length ∨ isPathSeparator (path.getD (r + 2) '/') = true)) := by
        rintro ⟨hd, hd2, hn | hs⟩
        · exact hdotdot ⟨hd, hd2, hn⟩
        · by_cases hlt : r + 2 < path.length
          · exact hlast (r + 2) (by omega) hlt hs
          · by_cases hlt1 : r + 1 < path.length
            · exact hdotdot ⟨hd, hd2, by omega⟩
            · exact hdot ⟨hd, by omega⟩
      rw [if_neg h1, if_neg h2, if_neg h3]
      have helem : (path.drop r).takeWhile (fun c => !isPathSeparator c) = path.drop r := by
        rw [List.takeWhile_eq_self_iff]
        intro c hc
        obtain ⟨i, hi, rfl⟩ := List.mem_iff_getElem.mp hc
        simp only [List.length_drop] at hi
        have hne := hlast (r + i) (by omega) (by omega)
        have hg : path.getD (r + i) '/' = (path.drop r)[i] := by
          simp [List.getD, List.getElem?_eq_getElem (show r + i < path.length by omega)]
        rw [hg] at hne
        simpa using hne
      simp only [helem]
      rw [cleanLoop_done _ _ _ _ _ _ _ (by simp only [List.length_drop]; omega)]
      exact ⟨_, rfl⟩
    · have hlt : r < k := by omega
      have hsep : isPathSeparator (path.getD (k - 1) '/') = true := by
        rcases hsepk with h | h
        · omega
        · exact h
      split
      · exact ih _ _ _ (by omega) (by omega)
      · split
        · exact ih _ _ _ (by omega) (by omega)
        · split
          · rename_i hc
            have hne : r ≠ k - 1 := by
              intro he
              rw [← he, hc.1] at hsep
              exact absurd hsep (by decide)
            split
            · exact ih _ _ _ (by omega) (by omega)
            · split
              · exact ih _ _ _ (by omega) (by omega)
              · exact ih _ _ _ (by omega) (by omega)
          · rename_i hs _ _
            have hpos := element_length_pos path r hrn hs
            have hle := element_length_le path (k - 1) r (by omega) (by omega) hsep
            exact ih _ _ _ (by omega) (by omega)

/-- Go `filepath.Clean` keeps the last element of a path when that element is
neither empty nor `.` nor `..`. -/
theorem filepathClean_last (pre last : List Char)
    (hpre : pre = [] ∨ pre.getLast? = some '/')
    (hne : last ≠ [])
    (hns : ∀ c ∈ last, c ≠ '/')
    (hd : last ≠ ['.']) (hdd : last ≠ ['.', '.']) :
    ∃ X, filepathClean (pre ++ last) = X ++ last := by
  have hlen : 0 < last.length := List.length_pos.mpr hne
  have hget : ∀ i d, pre.length ≤ i → (hi : i - pre.length < last.length) →
      (pre ++ last).getD i d = last[i - pre.length] := by
    intro i d h1 h2
    simp [List.getD, List.getElem?_append_right h1, List.getElem?_eq_getElem h2]
  have hk : pre.length < (pre ++ last).length := by
    simp only [List.length_append]
    omega
  have hsepk : pre.length = 0 ∨
      isPathSeparator ((pre ++ last).getD (pre.length - 1) '/') = true := by
    rcases hpre with h | h
    · left
      simp [h]
    · right
      have hp : pre ≠ [] := by
        intro h0
        simp [h0] at h
      have hpl : 0 < pre.length := List.length_pos.mpr hp
      have h1 : (pre ++ last)[pre.length - 1]? = pre[pre.length - 1]? :=
        List.getElem?_append_left (by omega)
      rw [List.getLast?_eq_getElem?] at h
      simp [List.getD, h1, h, isPathSeparator]
  have hlast : ∀ i, pre.length ≤ i → i < (pre ++ last).length →
      ¬ isPathSeparator ((pre ++ last).getD i '/') = true := by
    intro i h1 h2
    simp only [List.length_append] at h2
    rw [hget i '/' h1 (by omega)]
    have := hns _ (List.getElem_mem (show i - pre.length < last.length by omega))
    simpa [isPathSeparator] using this
  have hdot : ¬ ((pre ++ last).getD pre.length '/' = '.' ∧
      pre.length + 1 = (pre ++ last).length) := by
    rintro ⟨h1, h2⟩
    simp only [List.length_append] at h2
    rw [hget _ '/' (le_refl _) (by omega)] at h1
    have hl1 : last.length = 1 := by omega
    obtain ⟨c, rfl⟩ := List.length_eq_one.mp hl1
    simp at h1
    exact hd (by rw [h1])
  have hdotdot : ¬ ((pre ++ last).getD pre.length '/' = '.' ∧
      (pre ++ last).getD (pre.length + 1) '/' = '.' ∧
      pre.length + 2 = (pre ++ last).length) := by
    rintro ⟨h1, h2, h3⟩
    simp only [List.length_append] at h3
    rw [hget _ '/' (le_refl _) (by omega)] at h1
    rw [hget _ '/' (by omega) (by omega)] at h2
    have hl2 : last.length = 2 := by omega
    obtain ⟨c1, c2, rfl⟩ := List.length_eq_two.mp hl2
    simp at h1 h2
    exact hdd (by rw [h1, h2])
  have hdrop : (pre ++ last).drop pre.length = last := List.drop_left' rfl
  have key := cleanLoop_last_element (pre ++ last) (isPathSeparator ((pre ++ last).getD 0 ' '))
    pre.length hk hsepk hlast hdot hdotdot
  have hnil : pre ++ last ≠ [] := by
    intro h
    simp at h
    exact hne h.2
  unfold filepathClean
  rw [if_neg hnil]
  dsimp only
  split
  · rename_i hroot
    have h1 : 1 ≤ pre.length := by
      by_contra hc
      have h0 : pre.length = 0 := by omega
      have := hlast 0 (by omega) (by omega)
      have hg0 : (pre ++ last).getD 0 ' ' = (pre ++ last).getD 0 '/' := by
        rw [hget 0 ' ' (by omega) (by omega), hget 0 '/' (by omega) (by omega)]
      rw [hg0] at hroot
      exact this hroot
    obtain ⟨X, hX⟩ := key (pre ++ last).length 1 ['/'] 1 h1 (by omega)
    rw [hdrop] at hX
    rw [hX]
    refine ⟨X, ?_⟩
    rw [if_neg]
    simp only [List.length_append]
    omega
  · obtain ⟨X, hX⟩ := key (pre ++ last).length 0 [] 0 (by omega) (by omega)
    rw [hdrop] at hX
    rw [hX]
    refine ⟨X, ?_⟩
    rw [if_neg]
    simp only [List.length_append]
    omega

/-- The scan of `filepath.Ext` never looks past a separator. -/
theorem extScan_append_sep (l x : List Char) :
    ∀ acc, extScan (l ++ '/' :: x) acc = extScan l acc := by
  induction l with
  | nil =>
    intro acc
    simp [extScan]
  | cons c l ih =>
    intro acc
    simp only [List.cons_append, extScan]
    split
    · rfl
    · split
      · rfl
      · exact ih _

/-- The scan of `filepath.Ext` stops inside a stretch that holds a dot. -/
theorem extScan_append_of_dot (l rest : List Char) (hdot : '.' ∈ l) :
    ∀ acc, extScan (l ++ rest) acc = extScan l acc := by
  induction l with
  | nil => simp at hdot
  | cons c l ih =>
    intro acc
    simp only [List.cons_append, extScan]
    split
    · rfl
    · split
      · rfl
      · rename_i _ hc
        have : '.' ∈ l := by
          rcases List.mem_cons.mp hdot with h | h
          · exact absurd h.symm hc
          · exact h
        exact ih this _

/-- The scan of `filepath.Ext` over a stretch without dot and separator finds
nothing. -/
theorem extScan_no_dot (l : List Char) (hns : ∀ c ∈ l, c ≠ '/') (hnd : '.' ∉ l) :
    ∀ acc, extScan l acc = [] := by
  induction l with
  | nil =>
    intro acc
    rfl
  | cons c l ih =>
    intro acc
    have h1 : c ≠ '/' := hns c (List.mem_cons_self _ _)
    have h2 : c ≠ '.' := by
      intro h
      exact hnd (by rw [h]; exact List.mem_cons_self _ _)
    simp only [extScan, if_neg h1, if_neg h2]
    exact ih (fun c hc => hns c (List.mem_cons_of_mem _ hc))
      (fun h => hnd (List.mem_cons_of_mem _ h)) _

/-- Every path splits into its last element and what precedes it. -/
theorem split_last_element (s : List Char) :
    ∃ pre last, s = pre ++ last ∧ (pre = [] ∨ pre.getLast? = some '/') ∧
      ∀ c ∈ last, c ≠ '/' := by
  refine ⟨(s.reverse.dropWhile (fun c => c ≠ '/')).reverse,
    (s.reverse.takeWhile (fun c => c ≠ '/')).reverse, ?_, ?_, ?_⟩
  · rw [← List.reverse_append, List.takeWhile_append_dropWhile, List.reverse_reverse]
  · cases hd : s.reverse.dropWhile (fun c => c ≠ '/') with
    | nil => exact Or.inl rfl
    | cons c t =>
      right
      have hc : c = '/' := by
        have := List.head_dropWhile_not (fun c => decide (c ≠ '/')) s.reverse
          (by rw [hd]; simp)
        simp only [hd, List.head_cons] at this
        simpa using this
      rw [List.getLast?_reverse, List.head?_cons, hc]
  · intro c hc
    rw [List.mem_reverse] at hc
    have := List.mem_takeWhile_imp hc
    simpa using this

/-- Go `filepath.Ext` only depends on the last element of the path. -/
theorem filepathExt_last (pre last : List Char)
    (hpre : pre = [] ∨ pre.getLast? = some '/') :
    filepathExt (pre ++ last) = filepathExt last := by
  unfold filepathExt
  rcases hpre with h | h
  · rw [h, List.nil_append]
  · rw [List.reverse_append]
    have hp : pre.reverse.head? = some '/' := by
      rw [List.head?_reverse, h]
    cases hr : pre.reverse with
    | nil => simp [hr] at hp
    | cons c t =>
      rw [hr] at hp
      simp only [List.head?_cons, Option.some.injEq] at hp
      rw [hp, extScan_append_sep]

/-- Go `filepath.Ext` of anything followed by a last element that holds a dot
is the extension of that element. -/
theorem filepathExt_append_of_dot (X last : List Char) (hdot : '.' ∈ last) :
    filepathExt (X ++ last) = filepathExt last := by
  unfold filepathExt
  rw [List.reverse_append, extScan_append_of_dot _ _ (by simpa using hdot)]

/-- Go `filepath.Join(home, rest)` keeps the extension of `rest` when that
extension is more than a bare dot. -/
theorem filepathExt_join (home rest : List Char) (h : 2 ≤ (filepathExt rest).length) :
    filepathExt (filepathJoin [home, rest]) = filepathExt rest := by
  obtain ⟨pre, last, rfl, hpre, hns⟩ := split_last_element rest
  rw [filepathExt_last pre last hpre] at h ⊢
  have hdot : '.' ∈ last := by
    by_contra hnd
    have : filepathExt last = [] := by
      unfold filepathExt
      exact extScan_no_dot _ (fun c hc => hns c (by simpa using hc))
        (by simpa using hnd) _
    rw [this] at h
    simp at h
  have hne : last ≠ [] := by
    intro h0
    rw [h0] at hdot
    simp at hdot
  have hd : last ≠ ['.'] := by
    intro h0
    rw [h0] at h
    revert h
    decide
  have hdd : last ≠ ['.', '.'] := by
    intro h0
    rw [h0] at h
    revert h
    decide
  have hclean : ∀ pre1, (pre1 = [] ∨ pre1.getLast? = some '/') →
      filepathExt (filepathClean (pre1 ++ last)) = filepathExt last := by
    intro pre1 hp1
    obtain ⟨X, hX⟩ := filepathClean_last pre1 last hp1 hne hns hd hdd
    rw [hX, filepathExt_append_of_dot X last hdot]
  by_cases hh : home = []
  · subst hh
    have hj : filepathJoin [[], pre ++ last] = filepathClean (pre ++ last) := by
      have hnil : pre ++ last ≠ [] := by
        intro h0
        simp at h0
        exact hne h0.2
      simp [filepathJoin, stringsJoin, hnil, List.intercalate]
    rw [hj]
    exact hclean pre hpre
  · have hj : filepathJoin [home, pre ++ last]
        = filepathClean ((home ++ '/' :: pre) ++ last) := by
      simp [filepathJoin, stringsJoin, hh, List.intercalate]
    rw [hj]
    apply hclean
    right
    rcases hpre with h0 | h0
    · rw [h0]
      simp
    · have hp : pre ≠ [] := by
        intro h1
        simp [h1] at h0
      rw [show home ++ '/' :: pre = (home ++ ['/']) ++ pre by simp,
        List.getLast?_append_of_ne_nil _ hp]
      exact h0

/-- Go `filepath.Ext` of a path that begins with `~/` is that of the rest. -/
theorem filepathExt_tilde (path : List Char)
    (hp : stringsHasPrefix path "~/".toList = true) :
    filepathExt path = filepathExt (path.drop 2) := by
  unfold stringsHasPrefix at hp
  rw [List.isPrefixOf_iff_prefix] at hp
  obtain ⟨t, rfl⟩ := hp
  show filepathExt (['~', '/'] ++ t) = filepathExt t
  exact filepathExt_last ['~', '/'] t (Or.inr rfl)

/-- The result of the loop of `filepath.Clean` does not depend on the fuel once
there is one round per remaining byte: the fuel `filepathClean` passes is
enough. -/
theorem cleanLoop_fuel (path : List Char) (rooted : Bool) :
    ∀ (f1 f2 r : Nat) (out : List Char) (dd : Nat),
      path.length - r ≤ f1 → path.length - r ≤ f2 →
      cleanLoop path path.length rooted f1 r out dd
        = cleanLoop path path.length rooted f2 r out dd := by
  intro f1
  induction f1 with
  | zero =>
    intro f2 r out dd h1 _
    cases f2 with
    | zero => rfl
    | succ f2 =>
      have : ¬ r < path.length := by omega
      simp [cleanLoop, this]
  | succ f1 ih =>
    intro f2 r out dd h1 h2
    cases f2 with
    | zero =>
      have : ¬ r < path.length := by omega
      simp [cleanLoop, this]
    | succ f2 =>
      unfold cleanLoop
      by_cases hr : r < path.length
      · simp only [hr, if_true]
        split
        · exact ih _ _ _ _ (by omega) (by omega)
        · split
          · exact ih _ _ _ _ (by omega) (by omega)
          · split
            · split
              · exact ih _ _ _ _ (by omega) (by omega)
              · split
                · exact ih _ _ _ _ (by omega) (by omega)
                · exact ih _ _ _ _ (by omega) (by omega)
            · rename_i hsep _ _
              have hpos := element_length_pos path r hr hsep
              exact ih _ _ _ _ (by omega) (by omega)
      · simp only [hr, if_false]

/-- Upper/lower-case variants have the same length. -/
theorem caseVariant_length : ∀ (s t : GoString), caseVariant s t = true → s.length = t.length
  | [], [], _ => rfl
  | [], _ :: _, h => by simp [caseVariant] at h
  | _ :: _, [], h => by simp [caseVariant] at h
  | c :: cs, d :: ds, h => by
    simp only [caseVariant, Bool.and_eq_true] at h
    simp [caseVariant_length cs ds h.2]

/-! ## Properties of `decode` and `openFile` -/

/-- Lower-casing an upper/lower-case variant of a dispatch-table extension
gives that extension, whatever the Unicode table. -/
theorem toLower_caseVariant (table : Char → Char) (d : Decoder) (s : GoString)
    (h : caseVariant s (dispatchExt d) = true) :
    stringsToLower table s = dispatchExt d := by
  cases d
  all_goals
    match s, h with
    | [], h => simp [caseVariant, dispatchExt] at h
    | [_], h => simp [caseVariant, dispatchExt] at h
    | [_, _], h => simp [caseVariant, dispatchExt] at h
    | [_, _, _], h => simp [caseVariant, dispatchExt] at h
    | [c1, c2, c3, c4], h =>
      simp [caseVariant, dispatchExt] at h
      try (
        obtain ⟨h1, h2, h3, h4⟩ := h
        rcases h1 with rfl | rfl <;> rcases h2 with rfl | rfl <;>
        rcases h3 with rfl | rfl <;> rcases h4 with rfl | rfl <;> rfl)
    | [c1, c2, c3, c4, c5], h =>
      simp [caseVariant, dispatchExt] at h
      try (
        obtain ⟨h1, h2, h3, h4, h5⟩ := h
        rcases h1 with rfl | rfl <;> rcases h2 with rfl | rfl <;>
        rcases h3 with rfl | rfl <;> rcases h4 with rfl | rfl <;>
        rcases h5 with rfl | rfl <;> rfl)
    | _ :: _ :: _ :: _ :: _ :: _ :: _, h => simp [caseVariant, dispatchExt] at h

/-- The actions of a decoder call on the argument the adaptation rule gives:
the invocation, then the `Close` of the reader if the decoder closes it. -/
theorem callDecoder_adapted (w : World) (d : Decoder) (r : Reader) :
    callDecoder w d (adaptedArg d r) =
      (w.decoder d (adaptedArg d r), .decoderCall d (adaptedArg d r) :: decoderClose w d r) := by
  unfold callDecoder decoderClose
  cases hc : w.decoderCloses d (adaptedArg d r) <;> cases hr : r.isReadCloser <;>
    cases d <;> simp_all [adaptedArg, DecoderArg.closable]

/-- What `decode` does on an extension of the dispatch table. -/
theorem decode_dispatch (w : World) (r : Reader) (d : Decoder) :
    decode w r (dispatchExt d) =
      (w.decoder d (adaptedArg d r),
        [.callDecode r (dispatchExt d), .decoderCall d (adaptedArg d r)] ++
          decoderClose w d r) := by
  have h := callDecoder_adapted w d r
  cases d
  · have h1 : decode w r (dispatchExt .mp3) =
        ((callDecoder w .mp3 (adaptedArg .mp3 r)).1,
          .callDecode r (dispatchExt .mp3) :: (callDecoder w .mp3 (adaptedArg .mp3 r)).2) := by
      simp [decode, dispatchExt, adaptedArg]
    rw [h1, h]
    rfl
  · have h1 : decode w r (dispatchExt .vorbis) =
        ((callDecoder w .vorbis (adaptedArg .vorbis r)).1,
          .callDecode r (dispatchExt .vorbis) ::
            (callDecoder w .vorbis (adaptedArg .vorbis r)).2) := by
      simp [decode, dispatchExt, adaptedArg]
    rw [h1, h]
    rfl
  · have h1 : decode w r (dispatchExt .wav) =
        ((callDecoder w .wav (adaptedArg .wav r)).1,
          .callDecode r (dispatchExt .wav) :: (callDecoder w .wav (adaptedArg .wav r)).2) := by
      simp [decode, dispatchExt, adaptedArg]
    rw [h1, h]
    rfl
  · have h1 : decode w r (dispatchExt .flac) =
        ((callDecoder w .flac (adaptedArg .flac r)).1,
          .callDecode r (dispatchExt .flac) ::
            (callDecoder w .flac (adaptedArg .flac r)).2) := by
      simp [decode, dispatchExt, adaptedArg]
    rw [h1, h]
    rfl

/-- The `Close` a decoder call performs is none or one, on its own reader. -/
theorem decoderClose_cases (w : World) (d : Decoder) (r : Reader) :
    decoderClose w d r = [] ∨ decoderClose w d r = [.readerClose r] := by
  unfold decoderClose
  split
  · exact Or.inr rfl
  · exact Or.inl rfl

/-- What `decode` does on any other extension. -/
theorem decode_default (w : World) (r : Reader) (ext : GoString)
    (h : ext ∉ supportedExts) :
    decode w r ext = (.error (unsupportedMessage ext), [.callDecode r ext]) := by
  simp only [supportedExts, List.mem_cons, List.mem_singleton, not_or, List.not_mem_nil,
    or_false] at h
  obtain ⟨h1, h2, h3, h4⟩ := h
  unfold decode unsupportedMessage
  rw [if_neg h1, if_neg h2, if_neg h3, if_neg h4]

/-- An extension is in the dispatch table or it is not supported. -/
theorem dispatch_or_unsupported (ext : GoString) :
    (∃ d, ext = dispatchExt d) ∨ ext ∉ supportedExts := by
  by_cases h : ext ∈ supportedExts
  · left
    simp only [supportedExts, List.mem_cons, List.mem_singleton, List.not_mem_nil,
      or_false] at h
    rcases h with h | h | h | h
    · exact ⟨.mp3, h⟩
    · exact ⟨.vorbis, h⟩
    · exact ⟨.wav, h⟩
    · exact ⟨.flac, h⟩
  · exact Or.inr h

/-- The actions of `decode`: its entry, then at most one decoder invocation
with the `Close` that decoder performs. -/
theorem decode_trace (w : World) (r : Reader) (ext : GoString) :
    (decode w r ext).2 = [.callDecode r ext] ∨
    ∃ d, ext = dispatchExt d ∧
      (decode w r ext).2 = [.callDecode r ext, .decoderCall d (adaptedArg d r)] ++
        decoderClose w d r := by
  rcases dispatch_or_unsupported ext with ⟨d, rfl⟩ | h
  · exact Or.inr ⟨d, rfl, by rw [decode_dispatch]⟩
  · exact Or.inl (by rw [decode_default w r ext h])

/-- Every action of `decode` is its entry, a decoder invocation, or a `Close`
of its reader by the decoder. -/
theorem decode_events (w : World) (r : Reader) (ext : GoString) :
    ∀ e ∈ (decode w r ext).2,
      e = .callDecode r ext ∨ (∃ d a, e = .decoderCall d a) ∨ e = .readerClose r := by
  intro e he
  rcases decode_trace w r ext with h | ⟨d, _, h⟩
  · rw [h] at he
    simp only [List.mem_singleton] at he
    exact Or.inl he
  · rw [h] at he
    simp only [List.mem_append, List.mem_cons, List.mem_singleton, List.not_mem_nil,
      or_false] at he
    rcases he with (he | he) | he
    · exact Or.inl he
    · exact Or.inr (Or.inl ⟨d, _, he⟩)
    · rcases decoderClose_cases w d r with hc | hc <;> rw [hc] at he
      · cases he
      · simp only [List.mem_singleton] at he
        exact Or.inr (Or.inr he)

/-- The function `decode` is entered once per call and invokes at most the
decoder of the dispatch table. -/
theorem decode_filters (w : World) (r : Reader) (ext : GoString) :
    (decode w r ext).2.filter Event.isCallDecode = [.callDecode r ext] ∧
    (decode w r ext).2.filter Event.isOsOpen = [] ∧
    ((decode w r ext).2.filter Event.isDecoderCall = [] ∨
      ∃ d, ext = dispatchExt d ∧
        (decode w r ext).2.filter Event.isDecoderCall
          = [.decoderCall d (adaptedArg d r)]) := by
  rcases decode_trace w r ext with h | ⟨d, hd, h⟩
  · rw [h]
    exact ⟨rfl, rfl, Or.inl rfl⟩
  · rw [h]
    rcases decoderClose_cases w d r with hc | hc <;> rw [hc]
    · exact ⟨rfl, rfl, Or.inr ⟨d, hd, rfl⟩⟩
    · exact ⟨rfl, rfl, Or.inr ⟨d, hd, rfl⟩⟩

/-- The function `openFile` split at the call of `os.Open`. -/
theorem openFile_eq (w : World) (path : GoString) :
    openFile w path =
      if stringsHasPrefix path "~/".toList then
        match w.userHomeDir with
        | .error err =>
          (.error ("failed to get home directory: ".toList ++ err), [.userHomeDir])
        | .ok home => openFileAt w [.userHomeDir] (filepathJoin [home, path.drop 2])
      else openFileAt w [] path := by
  unfold openFile openFileAt
  split
  · cases w.userHomeDir <;> rfl
  · rfl

/-- The actions of `openFileAt` after those in `t`: the `os.Open`, then the
actions of `decode` (if the file opened), then the `Close` of the file (if
`decode` failed). -/
theorem openFileAt_trace (w : World) (t : List Event) (p : GoString) :
    (openFileAt w t p).2 = t ++ [.osOpen p] ∨
    ∃ fd, w.osOpen p = .ok fd ∧
      ((openFileAt w t p).2 = t ++ [.osOpen p] ++
          (decode w (.file fd) (stringsToLower w.lowerTable (filepathExt p))).2 ∨
       (openFileAt w t p).2 = t ++ [.osOpen p] ++
          (decode w (.file fd) (stringsToLower w.lowerTable (filepathExt p))).2 ++
          [.readerClose (.file fd)]) := by
  unfold openFileAt
  cases ho : w.osOpen p with
  | error e => exact Or.inl rfl
  | ok fd =>
    right
    refine ⟨fd, rfl, ?_⟩
    dsimp only
    rcases decode w (.file fd) (stringsToLower w.lowerTable (filepathExt p))
      with ⟨res, td⟩
    cases res with
    | error e => exact Or.inr rfl
    | ok a => exact Or.inl rfl

/-- The only path `openFileAt` passes to `os.Open` is its argument. -/
theorem openFileAt_osOpen_mem (w : World) (t : List Event) (p q : GoString)
    (h : Event.osOpen q ∈ (openFileAt w t p).2) : q = p ∨ Event.osOpen q ∈ t := by
  have hd : ∀ fd, Event.osOpen q ∉
      (decode w (.file fd) (stringsToLower w.lowerTable (filepathExt p))).2 := by
    intro fd hm
    rcases decode_events w _ _ _ hm with h2 | ⟨d, a, h2⟩ | h2 <;> cases h2
  rcases openFileAt_trace w t p with h1 | ⟨fd, _, h1 | h1⟩ <;> rw [h1] at h <;>
    simp only [List.mem_append, List.mem_singleton, Event.osOpen.injEq] at h
  · tauto
  · have := hd fd
    tauto
  · have := hd fd
    have hc : Event.osOpen q ≠ .readerClose (.file fd) := by
      intro hc
      cases hc
    tauto

/-- The paths `openFile` passes to `os.Open`: the path itself, or the home
directory joined with what follows the tilde prefix. -/
theorem openFile_osOpen_mem (w : World) (path p : GoString)
    (h : Event.osOpen p ∈ (openFile w path).2) :
    (stringsHasPrefix path "~/".toList = false ∧ p = path) ∨
    (stringsHasPrefix path "~/".toList = true ∧
      ∃ home, w.userHomeDir = .ok home ∧ p = filepathJoin [home, path.drop 2]) := by
  rw [openFile_eq] at h
  by_cases hp : stringsHasPrefix path "~/".toList = true
  · right
    refine ⟨hp, ?_⟩
    simp only [hp, if_true] at h
    cases hh : w.userHomeDir with
    | error e => simp [hh] at h
    | ok home =>
      simp only [hh] at h
      rcases openFileAt_osOpen_mem w _ _ _ h with h1 | h1
      · exact ⟨home, rfl, h1⟩
      · simp at h1
  · left
    simp only [hp] at h
    rcases openFileAt_osOpen_mem w _ _ _ h with h1 | h1
    · exact ⟨by simpa using hp, h1⟩
    · simp at h1

/-- When `openFile` opens `p`, it is `openFileAt` on `p` after at most the
home-directory lookup. -/
theorem openFile_eq_of_osOpen (w : World) (path p : GoString)
    (h : Event.osOpen p ∈ (openFile w path).2) :
    ∃ t, (∀ e ∈ t, e = Event.userHomeDir) ∧ openFile w path = openFileAt w t p := by
  rcases openFile_osOpen_mem w path p h with ⟨hp, rfl⟩ | ⟨hp, home, hh, rfl⟩
  · exact ⟨[], by simp, by rw [openFile_eq, hp]; rfl⟩
  · exact ⟨[.userHomeDir], by simp, by rw [openFile_eq, hp, hh]; rfl⟩

/-- The function `openFileAt` when the file opens and the lowered extension
is in the dispatch table. -/
theorem openFileAt_dispatch (w : World) (t : List Event) (p : GoString) (fd : Nat)
    (d : Decoder) (hok : w.osOpen p = .ok fd)
    (hext : stringsToLower w.lowerTable (filepathExt p) = dispatchExt d) :
    openFileAt w t p =
      (w.decoder d (adaptedArg d (.file fd)),
        t ++ [.osOpen p, .callDecode (.file fd) (dispatchExt d),
          .decoderCall d (adaptedArg d (.file fd))] ++ decoderClose w d (.file fd) ++
        match w.decoder d (adaptedArg d (.file fd)) with
        | .error _ => [.readerClose (.file fd)]
        | .ok _ => []) := by
  unfold openFileAt
  simp only [hok, hext, decode_dispatch]
  cases w.decoder d (adaptedArg d (.file fd)) <;> simp

/-- The extension of the path `openFile` opens is the extension of the path
it was given, when the latter is an upper/lower-case variant of a
dispatch-table extension. -/
theorem openFile_opened_ext (w : World) (path p : GoString) (d : Decoder)
    (hopen : Event.osOpen p ∈ (openFile w path).2)
    (hext : caseVariant (filepathExt path) (dispatchExt d) = true) :
    filepathExt p = filepathExt path := by
  rcases openFile_osOpen_mem w path p hopen with ⟨_, rfl⟩ | ⟨hp, home, _, rfl⟩
  · rfl
  · have hlen : 2 ≤ (filepathExt (path.drop 2)).length := by
      rw [← filepathExt_tilde path hp, caseVariant_length _ _ hext]
      cases d <;> decide
    rw [filepathExt_join home (path.drop 2) hlen, filepathExt_tilde path hp]

/-- C1: when `openFile` opens a path successfully and the `filepath.Ext` of
the path (as given to `openFile`, or as passed to `os.Open` after the tilde
expansion) is an upper/lower-case variant of `.mp3`, `.ogg`, `.wav` or
`.flac`, the file is handed to the decoder of the dispatch table for that
extension and to no other decoder: `decode` is entered once, with the lowered
extension, the only decoder invocation is the matching one, and `openFile`
returns what that decoder returns. -/
theorem openFile_selects_matching_decoder (w : World) (path p : GoString) (fd : Nat)
    (d : Decoder)
    (hopen : Event.osOpen p ∈ (openFile w path).2)
    (hok : w.osOpen p = .ok fd)
    (hext : caseVariant (filepathExt path) (dispatchExt d) = true ∨
      caseVariant (filepathExt p) (dispatchExt d) = true) :
    (openFile w path).2.filter Event.isDecoderCall
        = [.decoderCall d (adaptedArg d (.file fd))] ∧
    (openFile w path).2.filter Event.isCallDecode
        = [.callDecode (.file fd) (dispatchExt d)] ∧
    stringsToLower w.lowerTable (filepathExt p) = dispatchExt d ∧
    (openFile w path).1 = w.decoder d (adaptedArg d (.file fd)) := by
  have hextp : caseVariant (filepathExt p) (dispatchExt d) = true := by
    rcases hext with h | h
    · rw [openFile_opened_ext w path p d hopen h]
      exact h
    · exact h
  have hlow := toLower_caseVariant w.lowerTable d (filepathExt p) hextp
  obtain ⟨t, ht, heq⟩ := openFile_eq_of_osOpen w path p hopen
  rw [heq, openFileAt_dispatch w t p fd d hok hlow]
  have hf1 : t.filter Event.isDecoderCall = [] := by
    rw [List.filter_eq_nil_iff]
    intro e he
    rw [ht e he]
    simp [Event.isDecoderCall]
  have hf2 : t.filter Event.isCallDecode = [] := by
    rw [List.filter_eq_nil_iff]
    intro e he
    rw [ht e he]
    simp [Event.isCallDecode]
  refine ⟨?_, ?_, hlow, rfl⟩
  · cases w.decoder d (adaptedArg d (.file fd)) <;>
      rcases decoderClose_cases w d (.file fd) with hc | hc <;> rw [hc] <;>
      simp [List.filter_append, hf1, List.filter, Event.isDecoderCall]
  · cases w.decoder d (adaptedArg d (.file fd)) <;>
      rcases decoderClose_cases w d (.file fd) with hc | hc <;> rw [hc] <;>
      simp [List.filter_append, hf2, List.filter, Event.isCallDecode]

/-- C1 at concrete inputs: `song.MP3` goes to the MP3 decoder and
`~/sounds/beep.wav` to the WAV decoder. -/
theorem openFile_selects_matching_decoder_witness :
    (Event.osOpen "song.MP3".toList ∈ (openFile sampleWorld "song.MP3".toList).2 ∧
      sampleWorld.osOpen "song.MP3".toList = .ok 4 ∧
      caseVariant (filepathExt "song.MP3".toList) (dispatchExt .mp3) = true) ∧
    (openFile sampleWorld "song.MP3".toList).2.filter Event.isDecoderCall
      = [.decoderCall .mp3 (.readCloser (.file 4))] ∧
    (Event.osOpen "/home/u/sounds/beep.wav".toList
        ∈ (openFile sampleWorld "~/sounds/beep.wav".toList).2 ∧
      sampleWorld.osOpen "/home/u/sounds/beep.wav".toList = .ok 3 ∧
      caseVariant (filepathExt "~/sounds/beep.wav".toList) (dispatchExt .wav) = true) ∧
    (openFile sampleWorld "~/sounds/beep.wav".toList).2.filter Event.isDecoderCall
      = [.decoderCall .wav (.reader (.file 3))] :=
  ⟨by decide,
   (openFile_selects_matching_decoder sampleWorld "song.MP3".toList "song.MP3".toList 4 .mp3
      (by decide) (by decide) (Or.inr (by decide))).1,
   by decide,
   (openFile_selects_matching_decoder sampleWorld "~/sounds/beep.wav".toList
      "/home/u/sounds/beep.wav".toList 3 .wav (by decide) (by decide)
      (Or.inl (by decide))).1⟩

/-- C2: for every extension other than `.mp3`, `.ogg`, `.wav` and `.flac`
(the empty string included) `decode` invokes no decoder and returns the error
"unsupported audio format: EXT (supported: .mp3, .ogg, .wav, .flac)", which
contains the offending extension and each of the four supported ones. -/
theorem decode_unsupported_format (w : World) (reader : Reader) (ext : GoString)
    (h : ext ∉ supportedExts) :
    (decode w reader ext).1 =
      .error ("unsupported audio format: ".toList ++ ext ++
        " (supported: .mp3, .ogg, .wav, .flac)".toList) ∧
    (decode w reader ext).2 = [.callDecode reader ext] ∧
    (decode w reader ext).2.filter Event.isDecoderCall = [] ∧
    ext <:+: unsupportedMessage ext ∧
    ∀ e ∈ supportedExts, e <:+: unsupportedMessage ext := by
  rw [decode_default w reader ext h]
  refine ⟨rfl, rfl, by simp [List.filter, Event.isDecoderCall], ?_, ?_⟩
  · exact ⟨"unsupported audio format: ".toList,
      " (supported: .mp3, .ogg, .wav, .flac)".toList, rfl⟩
  · intro e he
    simp only [supportedExts, List.mem_cons, List.mem_singleton, List.not_mem_nil,
      or_false] at he
    rcases he with rfl | rfl | rfl | rfl
    · exact ⟨"unsupported audio format: ".toList ++ ext ++ " (supported: ".toList,
        ", .ogg, .wav, .flac)".toList, by simp [unsupportedMessage]⟩
    · exact ⟨"unsupported audio format: ".toList ++ ext ++ " (supported: .mp3, ".toList,
        ", .wav, .flac)".toList, by simp [unsupportedMessage]⟩
    · exact ⟨"unsupported audio format: ".toList ++ ext ++ " (supported: .mp3, .ogg, ".toList,
        ", .flac)".toList, by simp [unsupportedMessage]⟩
    · exact ⟨"unsupported audio format: ".toList ++ ext ++
        " (supported: .mp3, .ogg, .wav, ".toList, ")".toList, by simp [unsupportedMessage]⟩

/-- C2 at concrete inputs: the extension `.xyz`. -/
theorem decode_unsupported_format_witness :
    ".xyz".toList ∉ supportedExts ∧
    (decode sampleWorld (.file 5) ".xyz".toList).1 =
      .error "unsupported audio format: .xyz (supported: .mp3, .ogg, .wav, .flac)".toList :=
  ⟨by decide, (decode_unsupported_format sampleWorld (.file 5) ".xyz".toList (by decide)).1⟩

/-! ## Properties of `openURL` and `openAudio` -/

/-- The function `openURL` once the response arrived with status 200 and its
body was read. -/
theorem openURL_eq (w : World) (url : GoString) (resp : Response) (data : List Nat)
    (hget : w.httpGet url = .ok resp) (hst : resp.statusCode = statusOK)
    (hbody : resp.body = .ok data) :
    openURL w url =
      match decode w (newBytesReadCloser data) (urlExt w.lowerTable url) with
      | (.error err, td) =>
        (.error err, [.httpGet url 30, .readAll] ++ td ++
          [.readerClose (newBytesReadCloser data), .bodyClose])
      | (.ok audio, td) => (.ok audio, [.httpGet url 30, .readAll] ++ td ++ [.bodyClose]) := by
  unfold openURL urlExt
  simp only [hget, hst, hbody, ne_eq, not_true_eq_false, if_false]

/-- The function `openURL` when no body was obtained returns an error after
at most the GET, the read and the close of the response body. -/
theorem openURL_cases (w : World) (url : GoString) :
    (∃ e, openURL w url = (.error e, [.httpGet url 30])) ∨
    (∃ e, openURL w url = (.error e, [.httpGet url 30, .bodyClose])) ∨
    (∃ e, openURL w url = (.error e, [.httpGet url 30, .readAll, .bodyClose])) ∨
    ∃ resp data, w.httpGet url = .ok resp ∧ resp.statusCode = statusOK ∧
      resp.body = .ok data := by
  cases hget : w.httpGet url with
  | error e =>
    left
    exact ⟨_, by unfold openURL; simp only [hget]; rfl⟩
  | ok resp =>
    by_cases hst : resp.statusCode = statusOK
    · cases hbody : resp.body with
      | error e =>
        right; right; left
        exact ⟨_, by unfold openURL; simp only [hget, hst, hbody, ne_eq, not_true_eq_false,
          if_false]; rfl⟩
      | ok data =>
        right; right; right
        exact ⟨resp, data, rfl, hst, hbody⟩
    · right; left
      exact ⟨_, by unfold openURL; simp only [hget]; rw [if_pos hst]⟩

/-- The function `openURL` when the body was read and `decode` fails: the
error is passed on, the buffer is closed, then the response body. -/
theorem openURL_decode_error (w : World) (url : GoString) (resp : Response)
    (data : List Nat) (err : GoString)
    (hget : w.httpGet url = .ok resp) (hst : resp.statusCode = statusOK)
    (hbody : resp.body = .ok data)
    (hdec : (decode w (newBytesReadCloser data) (urlExt w.lowerTable url)).1 = .error err) :
    openURL w url =
      (.error err, [.httpGet url 30, .readAll] ++
        (decode w (newBytesReadCloser data) (urlExt w.lowerTable url)).2 ++
        [.readerClose (newBytesReadCloser data), .bodyClose]) := by
  rw [openURL_eq w url resp data hget hst hbody]
  revert hdec
  rcases decode w (newBytesReadCloser data) (urlExt w.lowerTable url) with ⟨res, td⟩
  intro hdec
  simp only at hdec
  subst hdec
  rfl

/-- The actions of `openURL` when the body was read. -/
theorem openURL_trace (w : World) (url : GoString) (resp : Response) (data : List Nat)
    (hget : w.httpGet url = .ok resp) (hst : resp.statusCode = statusOK)
    (hbody : resp.body = .ok data) :
    (openURL w url).2 = [.httpGet url 30, .readAll] ++
        (decode w (newBytesReadCloser data) (urlExt w.lowerTable url)).2 ++ [.bodyClose] ∨
    (openURL w url).2 = [.httpGet url 30, .readAll] ++
        (decode w (newBytesReadCloser data) (urlExt w.lowerTable url)).2 ++
        [.readerClose (newBytesReadCloser data), .bodyClose] := by
  rw [openURL_eq w url resp data hget hst hbody]
  rcases decode w (newBytesReadCloser data) (urlExt w.lowerTable url) with ⟨res, td⟩
  cases res with
  | error e => exact Or.inr rfl
  | ok a => exact Or.inl rfl

/-- An entry into `decode` among the actions of `openURL` is the one for the
in-memory buffer and the extension computed from the URL. -/
theorem openURL_callDecode (w : World) (url : GoString) (r : Reader) (ext : GoString)
    (h : Event.callDecode r ext ∈ (openURL w url).2) :
    ∃ resp data, w.httpGet url = .ok resp ∧ resp.statusCode = statusOK ∧
      resp.body = .ok data ∧ r = newBytesReadCloser data ∧ ext = urlExt w.lowerTable url := by
  rcases openURL_cases w url with ⟨e, h1⟩ | ⟨e, h1⟩ | ⟨e, h1⟩ | ⟨resp, data, hget, hst, hbody⟩
  · rw [h1] at h; simp at h
  · rw [h1] at h; simp at h
  · rw [h1] at h; simp at h
  · refine ⟨resp, data, hget, hst, hbody, ?_⟩
    have hd : Event.callDecode r ext ∈
        (decode w (newBytesReadCloser data) (urlExt w.lowerTable url)).2 := by
      rcases openURL_trace w url resp data hget hst hbody with h1 | h1 <;>
        rw [h1] at h <;> simpa using h
    rcases decode_events w _ _ _ hd with h2 | ⟨d, a, h2⟩ | h2
    · cases h2
      exact ⟨rfl, rfl⟩
    · cases h2
    · cases h2

/-- The function `openAudio` is `openURL` or `openFile`. -/
theorem openAudio_cases (w : World) (source : GoString) :
    ((stringsHasPrefix source "http://".toList = true ∨
        stringsHasPrefix source "https://".toList = true) ∧
      openAudio w source = openURL w source) ∨
    ((stringsHasPrefix source "http://".toList = false ∧
        stringsHasPrefix source "https://".toList = false) ∧
      openAudio w source = openFile w source) := by
  unfold openAudio
  cases h1 : stringsHasPrefix source "http://".toList <;>
    cases h2 : stringsHasPrefix source "https://".toList
  · exact Or.inr ⟨⟨rfl, rfl⟩, rfl⟩
  · exact Or.inl ⟨Or.inr rfl, rfl⟩
  · exact Or.inl ⟨Or.inl rfl, rfl⟩
  · exact Or.inl ⟨Or.inl rfl, rfl⟩

/-- C3 (the code departs from the claim): for the URL of the claim the
extension passed to `decode` is `.ogg`; for the same URL with a query string
that contains a dot it is the text after that dot (`.5`), and with a query
string that contains a slash it is empty, while the lowered extension of the
URL path component is `.ogg` in all three cases.  So it is not the case that
`.ogg` is passed for every query string. -/
theorem openURL_ext_depends_on_query :
    decodeExts (openURL sampleWorld "https://example.com/sound.ogg?x=1".toList).2
      = [".ogg".toList] ∧
    specURLExt id "https://example.com/sound.ogg?x=1".toList = ".ogg".toList ∧
    decodeExts (openURL sampleWorld "https://example.com/sound.ogg?v=1.5".toList).2
      = [".5".toList] ∧
    (openURL sampleWorld "https://example.com/sound.ogg?v=1.5".toList).1
      = .error "unsupported audio format: .5 (supported: .mp3, .ogg, .wav, .flac)".toList ∧
    specURLExt id "https://example.com/sound.ogg?v=1.5".toList = ".ogg".toList ∧
    decodeExts (openURL sampleWorld "https://example.com/sound.ogg?u=a/b".toList).2
      = [[]] ∧
    specURLExt id "https://example.com/sound.ogg?u=a/b".toList = ".ogg".toList ∧
    ¬ ∀ query : GoString,
      decodeExts (openURL sampleWorld ("https://example.com/sound.ogg?".toList ++ query)).2
        = [".ogg".toList] := by
  refine ⟨by decide, by decide, by decide, by decide, by decide, by decide, by decide, ?_⟩
  intro h
  exact absurd (h "v=1.5".toList) (by decide)

/-- The function `openFileAt` calls `os.Open` once, on its argument. -/
theorem openFileAt_filter_osOpen (w : World) (t : List Event) (p : GoString) :
    (openFileAt w t p).2.filter Event.isOsOpen = t.filter Event.isOsOpen ++ [.osOpen p] := by
  have hd : ∀ r ext, (decode w r ext).2.filter Event.isOsOpen = [] :=
    fun r ext => (decode_filters w r ext).2.1
  rcases openFileAt_trace w t p with h | ⟨fd, _, h | h⟩ <;> rw [h] <;>
    simp [List.filter_append, hd, List.filter, Event.isOsOpen]

/-- C4: for a path that begins with `~/`, when the home directory resolves to
`h` the one path `openFile` passes to `os.Open` is `filepath.Join(h, rest)`
with `rest` the path after the `~/`; when the home directory does not resolve
`openFile` returns the error "failed to get home directory: CAUSE" and its
only action is the home-directory lookup, so no file is opened. -/
theorem openFile_tilde_expansion (w : World) (path : GoString)
    (hp : stringsHasPrefix path "~/".toList = true) :
    (∀ h, w.userHomeDir = .ok h →
      (openFile w path).2.filter Event.isOsOpen
        = [.osOpen (filepathJoin [h, path.drop 2])]) ∧
    (∀ cause, w.userHomeDir = .error cause →
      (openFile w path).1 = .error ("failed to get home directory: ".toList ++ cause) ∧
      (openFile w path).2 = [.userHomeDir] ∧
      (openFile w path).2.filter Event.isOsOpen = []) := by
  rw [openFile_eq, hp]
  constructor
  · intro h hh
    simp only [hh, if_true, openFileAt_filter_osOpen]
    simp [List.filter, Event.isOsOpen]
  · intro cause hh
    simp only [hh, if_true]
    simp [List.filter, Event.isOsOpen]

/-- C4 at the input of the specification: `~/sounds/beep.wav` with home
directory `/home/u` opens `/home/u/sounds/beep.wav`; without a home directory
nothing is opened. -/
theorem openFile_tilde_expansion_witness :
    stringsHasPrefix "~/sounds/beep.wav".toList "~/".toList = true ∧
    (openFile sampleWorld "~/sounds/beep.wav".toList).2.filter Event.isOsOpen
      = [.osOpen "/home/u/sounds/beep.wav".toList] ∧
    (openFile homelessWorld "~/sounds/beep.wav".toList).2 = [.userHomeDir] :=
  ⟨by decide,
   (openFile_tilde_expansion sampleWorld "~/sounds/beep.wav".toList (by decide)).1
      "/home/u".toList rfl,
   ((openFile_tilde_expansion homelessWorld "~/sounds/beep.wav".toList (by decide)).2
      "$HOME is not defined".toList rfl).2.1⟩

/-- C5: for a source that begins with `http://` or `https://` whose GET
yields a response with a status code other than 200, `openAudio` returns the
error "HTTP error: STATUS"; its actions are the GET and the close of the
response body, so `decode` is not entered and no decoder is invoked. -/
theorem openAudio_http_status_error (w : World) (source : GoString) (resp : Response)
    (hurl : stringsHasPrefix source "http://".toList = true ∨
      stringsHasPrefix source "https://".toList = true)
    (hget : w.httpGet source = .ok resp)
    (hst : resp.statusCode ≠ 200) :
    (openAudio w source).1 = .error ("HTTP error: ".toList ++ resp.status) ∧
    (openAudio w source).2 = [.httpGet source 30, .bodyClose] ∧
    (openAudio w source).2.filter Event.isCallDecode = [] ∧
    (openAudio w source).2.filter Event.isDecoderCall = [] := by
  have hopen : openAudio w source = openURL w source := by
    unfold openAudio
    rcases hurl with h | h <;> rw [h] <;> simp only [Bool.true_or, Bool.or_true, if_true]
  have hres : openURL w source
      = (.error ("HTTP error: ".toList ++ resp.status), [.httpGet source 30, .bodyClose]) := by
    unfold openURL
    simp only [hget, statusOK]
    rw [if_pos hst]
  rw [hopen, hres]
  exact ⟨rfl, rfl, by simp [List.filter, Event.isCallDecode],
    by simp [List.filter, Event.isDecoderCall]⟩

/-- C5 at a concrete input: a 404 answer for a URL ending in `.ogg`. -/
theorem openAudio_http_status_error_witness :
    (stringsHasPrefix "https://example.com/missing.ogg".toList "https://".toList = true ∧
      sampleWorld.httpGet "https://example.com/missing.ogg".toList
        = .ok ⟨404, "404 Not Found".toList, .ok []⟩ ∧
      (404 : Int) ≠ 200) ∧
    (openAudio sampleWorld "https://example.com/missing.ogg".toList).1
      = .error "HTTP error: 404 Not Found".toList :=
  ⟨by decide,
   (openAudio_http_status_error sampleWorld "https://example.com/missing.ogg".toList
      ⟨404, "404 Not Found".toList, .ok []⟩ (Or.inr (by decide)) (by decide) (by decide)).1⟩

/-- C6: for a source that begins with neither `http://` nor `https://`, when
the path `openAudio` passes to `os.Open` (the source, tilde-expanded) fails to
open with cause `cause`, `openAudio` returns the error
"failed to open file: CAUSE" and `decode` is not entered and no decoder is
invoked, whatever the extension of the path. -/
theorem openAudio_file_open_error (w : World) (source p cause : GoString)
    (hfile : stringsHasPrefix source "http://".toList = false ∧
      stringsHasPrefix source "https://".toList = false)
    (hopen : Event.osOpen p ∈ (openAudio w source).2)
    (hfail : w.osOpen p = .error cause) :
    (openAudio w source).1 = .error ("failed to open file: ".toList ++ cause) ∧
    (openAudio w source).2.filter Event.isCallDecode = [] ∧
    (openAudio w source).2.filter Event.isDecoderCall = [] := by
  have hoa : openAudio w source = openFile w source := by
    unfold openAudio
    rw [hfile.1, hfile.2]
    rfl
  rw [hoa] at hopen ⊢
  obtain ⟨t, ht, heq⟩ := openFile_eq_of_osOpen w source p hopen
  have hres : openFileAt w t p
      = (.error ("failed to open file: ".toList ++ cause), t ++ [.osOpen p]) := by
    unfold openFileAt
    simp only [hfail]
  rw [heq, hres]
  refine ⟨rfl, ?_, ?_⟩
  · rw [List.filter_eq_nil_iff]
    intro e he
    simp only [List.mem_append, List.mem_singleton] at he
    rcases he with he | rfl
    · rw [ht e he]; simp [Event.isCallDecode]
    · simp [Event.isCallDecode]
  · rw [List.filter_eq_nil_iff]
    intro e he
    simp only [List.mem_append, List.mem_singleton] at he
    rcases he with he | rfl
    · rw [ht e he]; simp [Event.isDecoderCall]
    · simp [Event.isDecoderCall]

/-- C6 at a concrete input: a missing file with an unsupported extension
reports the file-open error. -/
theorem openAudio_file_open_error_witness :
    ((stringsHasPrefix "missing.xyz".toList "http://".toList = false ∧
        stringsHasPrefix "missing.xyz".toList "https://".toList = false) ∧
      Event.osOpen "missing.xyz".toList ∈ (openAudio sampleWorld "missing.xyz".toList).2 ∧
      sampleWorld.osOpen "missing.xyz".toList
        = .error "open missing.xyz: no such file or directory".toList) ∧
    (openAudio sampleWorld "missing.xyz".toList).1
      = .error "failed to open file: open missing.xyz: no such file or directory".toList :=
  ⟨by decide,
   (openAudio_file_open_error sampleWorld "missing.xyz".toList "missing.xyz".toList
      "open missing.xyz: no such file or directory".toList (by decide) (by decide)
      (by decide)).1⟩

/-! ## Closing the stream when `decode` fails -/

/-- The function `openFileAt` when the file opens and `decode` fails: the
error is passed on and the file is closed last. -/
theorem openFileAt_decode_error (w : World) (t : List Event) (p : GoString) (fd : Nat)
    (err : GoString) (hok : w.osOpen p = .ok fd)
    (hdec : (decode w (.file fd) (stringsToLower w.lowerTable (filepathExt p))).1
      = .error err) :
    openFileAt w t p =
      (.error err, t ++ [.osOpen p] ++
        (decode w (.file fd) (stringsToLower w.lowerTable (filepathExt p))).2 ++
        [.readerClose (.file fd)]) := by
  unfold openFileAt
  simp only [hok]
  revert hdec
  rcases decode w (.file fd) (stringsToLower w.lowerTable (filepathExt p)) with ⟨res, td⟩
  intro hdec
  simp only at hdec
  subst hdec
  rfl

/-- An entry into `decode` among the actions of `openFileAt` is the one for
the opened file and the lowered extension of the path. -/
theorem openFileAt_callDecode (w : World) (t : List Event) (p : GoString) (r : Reader)
    (ext : GoString) (ht : ∀ e ∈ t, e = Event.userHomeDir)
    (h : Event.callDecode r ext ∈ (openFileAt w t p).2) :
    ∃ fd, w.osOpen p = .ok fd ∧ r = .file fd ∧
      ext = stringsToLower w.lowerTable (filepathExt p) := by
  have hnot : Event.callDecode r ext ∉ t ++ [.osOpen p] := by
    intro hm
    simp only [List.mem_append, List.mem_singleton] at hm
    rcases hm with hm | hm
    · have := ht _ hm
      cases this
    · cases hm
  rcases openFileAt_trace w t p with h1 | ⟨fd, hok, h1 | h1⟩
  · rw [h1] at h
    exact absurd h hnot
  all_goals
    refine ⟨fd, hok, ?_⟩
    rw [h1] at h
    simp only [List.mem_append, List.mem_singleton] at h hnot
    have hd : Event.callDecode r ext ∈
        (decode w (.file fd) (stringsToLower w.lowerTable (filepathExt p))).2 := by
      have hc : Event.callDecode r ext ≠ .readerClose (.file fd) := by
        intro hc
        cases hc
      tauto
    rcases decode_events w _ _ _ hd with h2 | ⟨d, a, h2⟩ | h2
    · cases h2
      exact ⟨rfl, rfl⟩
    · cases h2
    · cases h2

/-- The function `openFile` is `openFileAt` whenever it enters `decode`. -/
theorem openFile_callDecode (w : World) (path : GoString) (r : Reader) (ext : GoString)
    (h : Event.callDecode r ext ∈ (openFile w path).2) :
    ∃ t p fd, (∀ e ∈ t, e = Event.userHomeDir) ∧ openFile w path = openFileAt w t p ∧
      w.osOpen p = .ok fd ∧ r = .file fd ∧
      ext = stringsToLower w.lowerTable (filepathExt p) := by
  rw [openFile_eq] at h
  by_cases hp : stringsHasPrefix path "~/".toList = true
  · rw [hp] at h
    simp only [if_true] at h
    cases hh : w.userHomeDir with
    | error e =>
      rw [hh] at h
      simp at h
    | ok home =>
      rw [hh] at h
      have ht : ∀ e ∈ [Event.userHomeDir], e = Event.userHomeDir := by simp
      obtain ⟨fd, hok, hr, he⟩ := openFileAt_callDecode w _ _ r ext ht h
      exact ⟨_, _, fd, ht, by rw [openFile_eq, hp, hh]; rfl, hok, hr, he⟩
  · have hp2 : stringsHasPrefix path "~/".toList = false := by simpa using hp
    rw [hp2] at h
    have ht : ∀ e ∈ ([] : List Event), e = Event.userHomeDir := by simp
    obtain ⟨fd, hok, hr, he⟩ := openFileAt_callDecode w _ _ r ext ht h
    exact ⟨_, _, fd, ht, by rw [openFile_eq, hp2]; rfl, hok, hr, he⟩

/-- Every action of `openFile` belongs to the opening stage. -/
theorem openFile_events (w : World) (path : GoString) :
    ∀ e ∈ (openFile w path).2, e.isOpenStage = true := by
  have hdec : ∀ r ext, ∀ e ∈ (decode w r ext).2, e.isOpenStage = true := by
    intro r ext e he
    rcases decode_events w r ext e he with rfl | ⟨d, a, rfl⟩ | rfl <;> rfl
  have hat : ∀ t p, (∀ e ∈ t, e.isOpenStage = true) →
      ∀ e ∈ (openFileAt w t p).2, e.isOpenStage = true := by
    intro t p ht e he
    rcases openFileAt_trace w t p with h | ⟨fd, _, h | h⟩ <;> rw [h] at he <;>
      simp only [List.mem_append, List.mem_singleton] at he
    · rcases he with he | rfl
      · exact ht e he
      · rfl
    · rcases he with (he | rfl) | he
      · exact ht e he
      · rfl
      · exact hdec _ _ e he
    · rcases he with ((he | rfl) | he) | rfl
      · exact ht e he
      · rfl
      · exact hdec _ _ e he
      · rfl
  rw [openFile_eq]
  split
  · cases w.userHomeDir with
    | error err =>
      intro e he
      simp only [List.mem_singleton] at he
      subst he
      rfl
    | ok home =>
      apply hat
      intro e he
      simp only [List.mem_singleton] at he
      subst he
      rfl
  · apply hat
    intro e he
    cases he

/-- Every action of `openURL` belongs to the opening stage. -/
theorem openURL_events (w : World) (url : GoString) :
    ∀ e ∈ (openURL w url).2, e.isOpenStage = true := by
  intro e he
  rcases openURL_cases w url with ⟨x, h1⟩ | ⟨x, h1⟩ | ⟨x, h1⟩ | ⟨resp, data, hget, hst, hbody⟩
  · rw [h1] at he; simp at he; subst he; rfl
  · rw [h1] at he; simp at he; rcases he with rfl | rfl <;> rfl
  · rw [h1] at he; simp at he; rcases he with rfl | rfl | rfl <;> rfl
  · have hdec : ∀ e ∈ (decode w (newBytesReadCloser data) (urlExt w.lowerTable url)).2,
        e.isOpenStage = true := by
      intro e he
      rcases decode_events w _ _ e he with rfl | ⟨d, a, rfl⟩ | rfl <;> rfl
    rcases openURL_trace w url resp data hget hst hbody with h1 | h1 <;> rw [h1] at he <;>
      simp only [List.mem_append, List.mem_cons, List.mem_singleton, List.not_mem_nil,
        or_false] at he
    · rcases he with ((rfl | rfl) | he) | rfl
      · rfl
      · rfl
      · exact hdec e he
      · rfl
    · rcases he with ((rfl | rfl) | he) | rfl | rfl
      · rfl
      · rfl
      · exact hdec e he
      · rfl
      · rfl

/-- Every action of `openAudio` belongs to the opening stage. -/
theorem openAudio_events (w : World) (source : GoString) :
    ∀ e ∈ (openAudio w source).2, e.isOpenStage = true := by
  rcases openAudio_cases w source with ⟨_, h⟩ | ⟨_, h⟩ <;> rw [h]
  · exact openURL_events w source
  · exact openFile_events w source

/-- No action of `openAudio` is an entry into `play` or a close of a decoded
stream. -/
theorem openAudio_filters (w : World) (source : GoString) :
    (openAudio w source).2.filter Event.isCallPlay = [] ∧
    (openAudio w source).2.filter Event.isStreamerClose = [] := by
  constructor <;> rw [List.filter_eq_nil_iff] <;> intro e he <;>
    have := openAudio_events w source e he <;>
    cases e <;> simp_all [Event.isOpenStage, Event.isCallPlay, Event.isStreamerClose]

/-- The function `decode` closes its reader at most once, through the decoder
it invokes. -/
theorem decode_filter_readerClose (w : World) (r : Reader) (ext : GoString) :
    (decode w r ext).2.filter (Event.isReaderClose r) = [] ∨
    (decode w r ext).2.filter (Event.isReaderClose r) = [.readerClose r] := by
  rcases decode_trace w r ext with h | ⟨d, _, h⟩
  · rw [h]
    exact Or.inl rfl
  · rw [h]
    rcases decoderClose_cases w d r with hc | hc <;> rw [hc]
    · exact Or.inl rfl
    · right
      simp [List.filter, Event.isReaderClose]

/-- When `decode` fails inside `openFile`, the error is passed on and the
file is closed by `openFile` after `decode` returned, as the last action. -/
theorem openFile_decode_failure (w : World) (path : GoString) (r : Reader)
    (ext err : GoString)
    (hcall : Event.callDecode r ext ∈ (openFile w path).2)
    (hdec : (decode w r ext).1 = .error err) :
    (openFile w path).1 = .error err ∧
    (∃ pre, (openFile w path).2 = pre ++ (decode w r ext).2 ++ [.readerClose r] ∧
      pre.filter (Event.isReaderClose r) = []) ∧
    (openFile w path).2.getLast? = some (.readerClose r) ∧
    (openFile w path).2.filter (Event.isReaderClose r)
      = (decode w r ext).2.filter (Event.isReaderClose r) ++ [.readerClose r] := by
  obtain ⟨t, p, fd, ht, heq, hok, rfl, rfl⟩ := openFile_callDecode w path r ext hcall
  rw [heq, openFileAt_decode_error w t p fd err hok hdec]
  have hf : t.filter (Event.isReaderClose (.file fd)) = [] := by
    rw [List.filter_eq_nil_iff]
    intro e he
    rw [ht e he]
    simp [Event.isReaderClose]
  have hpre : (t ++ [Event.osOpen p]).filter (Event.isReaderClose (.file fd)) = [] := by
    rw [List.filter_append, hf]
    rfl
  refine ⟨rfl, ⟨t ++ [Event.osOpen p], rfl, hpre⟩, List.getLast?_concat _, ?_⟩
  rw [List.filter_append, List.filter_append, hpre, List.nil_append]
  simp [List.filter, Event.isReaderClose]

/-- When `decode` fails inside `openURL`, the error is passed on and the
buffer is closed by `openURL` after `decode` returned, before the deferred
close of the response body. -/
theorem openURL_decode_failure (w : World) (url : GoString) (r : Reader)
    (ext err : GoString)
    (hcall : Event.callDecode r ext ∈ (openURL w url).2)
    (hdec : (decode w r ext).1 = .error err) :
    (openURL w url).1 = .error err ∧
    (∃ pre, (openURL w url).2 = pre ++ (decode w r ext).2 ++ [.readerClose r, .bodyClose] ∧
      pre.filter (Event.isReaderClose r) = []) ∧
    (openURL w url).2.filter (Event.isReaderClose r)
      = (decode w r ext).2.filter (Event.isReaderClose r) ++ [.readerClose r] := by
  obtain ⟨resp, data, hget, hst, hbody, rfl, rfl⟩ := openURL_callDecode w url r ext hcall
  rw [openURL_decode_error w url resp data err hget hst hbody hdec]
  refine ⟨rfl, ⟨[Event.httpGet url 30, Event.readAll], rfl, rfl⟩, ?_⟩
  rw [List.filter_append, List.filter_append]
  simp [List.filter, Event.isReaderClose]

/-- The function `play` when `openAudio` fails: it returns the wrapped error
and does nothing after `openAudio`. -/
theorem play_of_open_error (w : World) (source err : GoString)
    (h : (openAudio w source).1 = .error err) :
    play w source =
      (.returned (some ("failed to open audio: ".toList ++ err)),
        .callPlay source :: (openAudio w source).2) := by
  unfold play
  revert h
  rcases openAudio w source with ⟨res, t⟩
  intro h
  simp only at h
  subst h
  rfl

/-- The function `play` when `openAudio` succeeds: the speaker is set up and
started, `play` waits, and if the wait ends the decoded stream is closed. -/
theorem play_of_open_ok (w : World) (source : GoString) (streamer : Streamer)
    (format : Format) (h : (openAudio w source).1 = .ok (streamer, format)) :
    play w source =
      if w.playbackCompletes streamer then
        (.returned none, .callPlay source :: (openAudio w source).2 ++
          [.speakerInit format.sampleRate (sampleRateN format.sampleRate (1000000000 / 10)),
           .speakerPlay streamer, .waitDone] ++ [.streamerClose streamer])
      else
        (.blocked, .callPlay source :: (openAudio w source).2 ++
          [.speakerInit format.sampleRate (sampleRateN format.sampleRate (1000000000 / 10)),
           .speakerPlay streamer, .waitDone]) := by
  unfold play
  revert h
  rcases openAudio w source with ⟨res, t⟩
  intro h
  simp only at h
  subst h
  rfl

/-- An entry into `decode` among the actions of `play` is one of `openAudio`. -/
theorem play_callDecode_mem (w : World) (source : GoString) (r : Reader) (ext : GoString)
    (h : Event.callDecode r ext ∈ (play w source).2) :
    Event.callDecode r ext ∈ (openAudio w source).2 := by
  cases hres : (openAudio w source).1 with
  | error err =>
    rw [play_of_open_error w source err hres] at h
    simpa using h
  | ok a =>
    obtain ⟨streamer, format⟩ := a
    rw [play_of_open_ok w source streamer format hres] at h
    split at h <;> simpa using h


/-- C7: whenever `decode` is entered for a stream (the opened file in
`openFile`, the in-memory buffer in `openURL`) and returns an error, the
function returns that same error and no decoded stream, and it calls `Close`
on the stream itself after `decode` returned and before it returns (as its
last action in `openFile`, and followed only by the deferred close of the
response body in `openURL`); `play` then returns the wrapped error without any
action after `openAudio`, so it closes neither the stream nor a decoded
stream.  The only other `Close` of the stream is the one a decoder performs
itself inside `decode` (at most one), which precedes that of `openFile` or
`openURL`. -/
theorem decode_failure_closes_stream (w : World) :
    (∀ path r ext err, Event.callDecode r ext ∈ (openFile w path).2 →
      (decode w r ext).1 = .error err →
      (openFile w path).1 = .error err ∧
      (∃ pre, (openFile w path).2 = pre ++ (decode w r ext).2 ++ [.readerClose r] ∧
        pre.filter (Event.isReaderClose r) = []) ∧
      (openFile w path).2.getLast? = some (.readerClose r) ∧
      (openFile w path).2.filter (Event.isReaderClose r)
        = (decode w r ext).2.filter (Event.isReaderClose r) ++ [.readerClose r]) ∧
    (∀ url r ext err, Event.callDecode r ext ∈ (openURL w url).2 →
      (decode w r ext).1 = .error err →
      (openURL w url).1 = .error err ∧
      (∃ pre, (openURL w url).2
          = pre ++ (decode w r ext).2 ++ [.readerClose r, .bodyClose] ∧
        pre.filter (Event.isReaderClose r) = []) ∧
      (openURL w url).2.filter (Event.isReaderClose r)
        = (decode w r ext).2.filter (Event.isReaderClose r) ++ [.readerClose r]) ∧
    (∀ source r ext err, Event.callDecode r ext ∈ (play w source).2 →
      (decode w r ext).1 = .error err →
      (play w source).1 = .returned (some ("failed to open audio: ".toList ++ err)) ∧
      (play w source).2 = .callPlay source :: (openAudio w source).2 ∧
      (play w source).2.filter (Event.isReaderClose r)
        = (openAudio w source).2.filter (Event.isReaderClose r) ∧
      (play w source).2.filter Event.isStreamerClose = []) ∧
    (∀ r ext, (decode w r ext).2.filter (Event.isReaderClose r) = [] ∨
      (decode w r ext).2.filter (Event.isReaderClose r) = [.readerClose r]) := by
  refine ⟨fun path r ext err => openFile_decode_failure w path r ext err,
    fun url r ext err => openURL_decode_failure w url r ext err, ?_,
    fun r ext => decode_filter_readerClose w r ext⟩
  intro source r ext err hcall hdec
  have hmem := play_callDecode_mem w source r ext hcall
  have hoa : (openAudio w source).1 = .error err := by
    rcases openAudio_cases w source with ⟨_, h⟩ | ⟨_, h⟩
    · rw [h] at hmem ⊢
      exact (openURL_decode_failure w source r ext err hmem hdec).1
    · rw [h] at hmem ⊢
      exact (openFile_decode_failure w source r ext err hmem hdec).1
  rw [play_of_open_error w source err hoa]
  refine ⟨rfl, rfl, ?_, ?_⟩
  · simp [List.filter_cons, Event.isReaderClose]
  · simp [List.filter_cons, Event.isStreamerClose, (openAudio_filters w source).2]

/-- C7 at concrete inputs: a local `.flac` file, whose decoder closes the file
itself when it rejects it, and a `.ogg` URL whose decoder does not. -/
theorem decode_failure_closes_stream_witness :
    (Event.callDecode (.file 6) ".flac".toList
        ∈ (openFile sampleWorld "broken.flac".toList).2 ∧
      (decode sampleWorld (.file 6) ".flac".toList).1
        = .error "flac: invalid signature".toList) ∧
    (openFile sampleWorld "broken.flac".toList).2.getLast? = some (.readerClose (.file 6)) ∧
    (Event.callDecode (.bytesReadCloser [79, 103, 103, 83]) ".ogg".toList
        ∈ (play sampleWorld "https://example.com/sound.ogg?x=1".toList).2 ∧
      (decode sampleWorld (.bytesReadCloser [79, 103, 103, 83]) ".ogg".toList).1
        = .error "ogg/vorbis: invalid header".toList) ∧
    (play sampleWorld "https://example.com/sound.ogg?x=1".toList).2
      = .callPlay "https://example.com/sound.ogg?x=1".toList ::
          (openAudio sampleWorld "https://example.com/sound.ogg?x=1".toList).2 :=
  ⟨by decide,
   ((decode_failure_closes_stream sampleWorld).1 "broken.flac".toList (.file 6)
      ".flac".toList "flac: invalid signature".toList (by decide) (by decide)).2.2.1,
   by decide,
   ((decode_failure_closes_stream sampleWorld).2.2.1
      "https://example.com/sound.ogg?x=1".toList (.bytesReadCloser [79, 103, 103, 83])
      ".ogg".toList "ogg/vorbis: invalid header".toList (by decide) (by decide)).2.1⟩

/-- Two complete runs of `openFile` on files the decoders reject: the FLAC
decoder has closed the file itself before `openFile` closes it, the MP3 decoder
has not. -/
theorem openFile_failure_runs :
    openFile sampleWorld "broken.flac".toList =
      (Except.error "flac: invalid signature".toList,
        [Event.osOpen "broken.flac".toList, Event.callDecode (Reader.file 6) ".flac".toList,
         Event.decoderCall Decoder.flac (DecoderArg.reader (Reader.file 6)),
         Event.readerClose (Reader.file 6), Event.readerClose (Reader.file 6)]) ∧
    openFile sampleWorld "song.MP3".toList =
      (Except.error "mp3: invalid header".toList,
        [Event.osOpen "song.MP3".toList, Event.callDecode (Reader.file 4) ".mp3".toList,
         Event.decoderCall Decoder.mp3 (DecoderArg.readCloser (Reader.file 4)),
         Event.readerClose (Reader.file 4)]) := by
  decide

/-! ## Properties of `play` and `main` -/

/-- The function `play` is entered once per call. -/
theorem play_filter_callPlay (w : World) (source : GoString) :
    (play w source).2.filter Event.isCallPlay = [.callPlay source] := by
  cases hres : (openAudio w source).1 with
  | error err =>
    rw [play_of_open_error w source err hres]
    simp [List.filter_cons, Event.isCallPlay, (openAudio_filters w source).1]
  | ok a =>
    obtain ⟨streamer, format⟩ := a
    rw [play_of_open_ok w source streamer format hres]
    split <;>
      simp [List.filter_cons, List.filter_append, Event.isCallPlay,
        (openAudio_filters w source).1]

/-- The function `main` once `flag.Parse` has returned. -/
theorem main_of_parse (w : World) (argv : List GoString) (flags : Flags)
    (args : List GoString) (hparse : flagParse argv Flags.defaults = .ok (flags, args)) :
    main w argv = mainBody w flags args := by
  unfold main
  rw [hparse]

/-- C8: when `flag.Parse` returns with any of the flags `h`, `help`, `v`,
`version` set, `main` exits with status 0 and never enters `play`: all it does
is write to standard output, the help text if `h` or `help` is set (the two
forms alike) and otherwise the version line (`v` and `version` alike), also
when a source argument follows the flags. -/
theorem main_help_version_exit_zero (w : World) (argv : List GoString) (flags : Flags)
    (args : List GoString)
    (hparse : flagParse argv Flags.defaults = .ok (flags, args))
    (hset : flags.h = true ∨ flags.help = true ∨ flags.v = true ∨ flags.version = true) :
    (main w argv).1 = some 0 ∧
    (main w argv).2.filter Event.isCallPlay = [] ∧
    (main w argv).2.all Event.isStdout = true ∧
    (main w argv).2 =
      if flags.h = true ∨ flags.help = true then showHelp
      else [.stdout "soundplay version 1.0.0\n".toList] := by
  rw [main_of_parse w argv flags args hparse]
  unfold mainBody
  by_cases hh : flags.h = true ∨ flags.help = true
  · have hb : (flags.h || flags.help) = true := by simpa using hh
    rw [if_pos hb, if_pos hh]
    refine ⟨rfl, by decide, by decide, rfl⟩
  · have hb : ¬ (flags.h || flags.help) = true := by simpa using hh
    have hv : (flags.v || flags.version) = true := by
      rcases hset with h | h | h | h
      · exact absurd (Or.inl h) hh
      · exact absurd (Or.inr h) hh
      · simp [h]
      · simp [h]
    rw [if_neg hb, if_pos hv, if_neg hh]
    refine ⟨rfl, by decide, by decide, rfl⟩

/-- C8 at concrete inputs: `--help` followed by a source argument. -/
theorem main_help_version_exit_zero_witness :
    (flagParse ["--help".toList, "song.MP3".toList] Flags.defaults
        = .ok (⟨false, true, false, false⟩, ["song.MP3".toList]) ∧
      ((false = true) ∨ (true = true) ∨ (false = true) ∨ (false = true))) ∧
    (main sampleWorld ["--help".toList, "song.MP3".toList]).1 = some 0 ∧
    (main sampleWorld ["--help".toList, "song.MP3".toList]).2.filter Event.isCallPlay = [] :=
  ⟨by decide,
   (main_help_version_exit_zero sampleWorld ["--help".toList, "song.MP3".toList]
      ⟨false, true, false, false⟩ ["song.MP3".toList] (by decide) (by decide)).1,
   (main_help_version_exit_zero sampleWorld ["--help".toList, "song.MP3".toList]
      ⟨false, true, false, false⟩ ["song.MP3".toList] (by decide) (by decide)).2.1⟩

/-- C9: when `flag.Parse` returns with none of the four flags set, then with
no positional argument `main` writes "Error: No audio source specified" and
the two usage lines to the error stream, exits with status 1 and never enters
`play`; with a positional argument `main` enters `play` exactly once, with the
first positional argument as the source, and the actions of that call are the
first actions of `main`. -/
theorem main_source_argument (w : World) (argv : List GoString) (flags : Flags)
    (args : List GoString)
    (hparse : flagParse argv Flags.defaults = .ok (flags, args))
    (hnone : flags.h = false ∧ flags.help = false ∧ flags.v = false ∧
      flags.version = false) :
    (args = [] →
      main w argv = (some 1,
        [.stderr "Error: No audio source specified\n".toList,
         .stderr "Usage: soundplay <file-or-url>\n".toList,
         .stderr "Try \x27soundplay -h\x27 for more information.\n".toList]) ∧
      (main w argv).2.filter Event.isCallPlay = []) ∧
    (∀ source rest, args = source :: rest →
      (main w argv).2.filter Event.isCallPlay = [.callPlay source] ∧
      ∃ post, (main w argv).2 = (play w source).2 ++ post ∧
        post.filter Event.isCallPlay = []) := by
  obtain ⟨h1, h2, h3, h4⟩ := hnone
  rw [main_of_parse w argv flags args hparse]
  unfold mainBody
  rw [h1, h2, h3, h4]
  simp only [Bool.or_self, Bool.false_eq_true, if_false]
  constructor
  · rintro rfl
    exact ⟨rfl, rfl⟩
  · rintro source rest rfl
    have hcp := play_filter_callPlay w source
    dsimp only
    revert hcp
    rcases play w source with ⟨res, t⟩
    intro hcp
    simp only at hcp
    cases res with
    | returned err =>
      cases err with
      | none => exact ⟨hcp, [], by simp, rfl⟩
      | some err =>
        refine ⟨?_, [.stderr ("Error: ".toList ++ err ++ "\n".toList)], rfl, rfl⟩
        simp only [List.filter_append, hcp]
        rfl
    | blocked => exact ⟨hcp, [], by simp, rfl⟩

/-- C9 at concrete inputs: no argument at all, and a source argument. -/
theorem main_source_argument_witness :
    (flagParse [] Flags.defaults = .ok (⟨false, false, false, false⟩, []) ∧
      (false = false ∧ false = false ∧ false = false ∧ false = false)) ∧
    (main sampleWorld []).1 = some 1 ∧
    (main sampleWorld ["song.MP3".toList, "-h".toList]).2.filter Event.isCallPlay
      = [.callPlay "song.MP3".toList] :=
  ⟨by decide,
   congrArg Prod.fst ((main_source_argument sampleWorld [] ⟨false, false, false, false⟩ []
      (by decide) (by decide)).1 rfl).1,
   ((main_source_argument sampleWorld ["song.MP3".toList, "-h".toList]
      ⟨false, false, false, false⟩ ["song.MP3".toList, "-h".toList]
      (by decide) (by decide)).2 "song.MP3".toList ["-h".toList] rfl).1⟩

/-- C10 as stated fails on the failure path: for a file that does not exist
`play` returns the wrapped file-open error and has called `Close` on a decoded
stream zero times, so "exactly once for every source" does not hold. -/
theorem play_open_failure_closes_nothing :
    (play sampleWorld "missing.wav".toList).1 = .returned (some
      "failed to open audio: failed to open file: open missing.wav: no such file or directory".toList) ∧
    ((play sampleWorld "missing.wav".toList).2.filter Event.isStreamerClose).length = 0 ∧
    ¬ ∀ (w : World) (source : GoString) (err : Option GoString),
        (play w source).1 = .returned err →
        ((play w source).2.filter Event.isStreamerClose).length = 1 := by
  refine ⟨by decide, by decide, fun h => ?_⟩
  exact absurd (h sampleWorld "missing.wav".toList (some
    "failed to open audio: failed to open file: open missing.wav: no such file or directory".toList)
    (by decide)) (by decide)

/-- C10, amended: when `openAudio` succeeds and the completion signal fires,
`play` calls `Close` on the decoded stream exactly once, as its last action
before it returns, and returns no error, so that `main` exits with status 0;
when `openAudio` fails there is no decoded stream: `play` returns the wrapped
error and calls `Close` on no decoded stream. -/
theorem play_closes_decoded_stream_once (w : World) (source : GoString) :
    (∀ streamer format, (openAudio w source).1 = .ok (streamer, format) →
      w.playbackCompletes streamer = true →
      (play w source).1 = .returned none ∧
      (play w source).2.filter Event.isStreamerClose = [.streamerClose streamer] ∧
      (play w source).2.getLast? = some (.streamerClose streamer) ∧
      ∀ rest, (mainBody w ⟨false, false, false, false⟩ (source :: rest)).1 = some 0) ∧
    (∀ err, (openAudio w source).1 = .error err →
      (play w source).1 = .returned (some ("failed to open audio: ".toList ++ err)) ∧
      (play w source).2.filter Event.isStreamerClose = []) := by
  constructor
  · intro streamer format hok hdone
    have hp := play_of_open_ok w source streamer format hok
    rw [hdone] at hp
    simp only [if_true] at hp
    refine ⟨by rw [hp], ?_, ?_, ?_⟩
    · rw [hp]
      simp [List.filter_cons, List.filter_append, Event.isStreamerClose,
        (openAudio_filters w source).2]
    · rw [hp]
      exact List.getLast?_concat _
    · intro rest
      unfold mainBody
      simp only [Bool.or_self, Bool.false_eq_true, if_false]
      rw [hp]
  · intro err herr
    rw [play_of_open_error w source err herr]
    refine ⟨rfl, ?_⟩
    simp [List.filter_cons, Event.isStreamerClose, (openAudio_filters w source).2]

/-- C10, amended, at the input of the specification: a well-formed local
`.wav` file. -/
theorem play_closes_decoded_stream_once_witness :
    ((openAudio sampleWorld "~/sounds/beep.wav".toList).1
        = .ok (Streamer.mk 1, Format.mk 44100 2 2) ∧
      sampleWorld.playbackCompletes (Streamer.mk 1) = true) ∧
    (play sampleWorld "~/sounds/beep.wav".toList).2.filter Event.isStreamerClose
      = [.streamerClose (Streamer.mk 1)] ∧
    (main sampleWorld ["~/sounds/beep.wav".toList]).1 = some 0 :=
  ⟨by decide,
   ((play_closes_decoded_stream_once sampleWorld "~/sounds/beep.wav".toList).1
      (Streamer.mk 1) (Format.mk 44100 2 2) (by decide) (by decide)).2.1,
   ((play_closes_decoded_stream_once sampleWorld "~/sounds/beep.wav".toList).1
      (Streamer.mk 1) (Format.mk 44100 2 2) (by decide) (by decide)).2.2.2 []⟩

/-- When `openAudio` succeeds and the completion signal never fires, `play`
does not return and the decoded stream is not closed. -/
theorem play_blocked (w : World) (source : GoString) (streamer : Streamer) (format : Format)
    (hok : (openAudio w source).1 = .ok (streamer, format))
    (hdone : w.playbackCompletes streamer = false) :
    (play w source).1 = .blocked ∧
    (play w source).2.filter Event.isStreamerClose = [] := by
  have hp := play_of_open_ok w source streamer format hok
  rw [hdone] at hp
  simp only [Bool.false_eq_true, if_false] at hp
  rw [hp]
  refine ⟨rfl, ?_⟩
  simp [List.filter_cons, List.filter_append, Event.isStreamerClose,
    (openAudio_filters w source).2]

/-! ## Checks of the library models on known values -/

/-- The models of `filepath.Ext`, `strings.ToLower` and `strings.Index` on
known values. -/
theorem string_helpers_examples :
    filepathExt "a/b.tar.gz".toList = ".gz".toList ∧
    filepathExt "a.b/c".toList = [] ∧
    filepathExt "~/a.mp3/".toList = [] ∧
    stringsToLower id ".Mp3".toList = ".mp3".toList ∧
    stringsIndex ".ogg?x=1".toList "?".toList = 4 ∧
    stringsIndex ".ogg".toList "?".toList = -1 := by
  decide

/-- The models of `filepath.Clean` and `filepath.Join` on the examples of
their documentation. -/
theorem filepath_examples :
    filepathClean "/home/u/sounds/beep.wav".toList = "/home/u/sounds/beep.wav".toList ∧
    filepathClean "/home/u/a/../b//c/./d/".toList = "/home/u/b/c/d".toList ∧
    filepathClean "../../a/../../b".toList = "../../../b".toList ∧
    filepathClean "/../a".toList = "/a".toList ∧
    filepathClean "a/..".toList = ".".toList ∧
    filepathClean "abc/def/../../..".toList = "..".toList ∧
    filepathClean "".toList = ".".toList ∧
    filepathJoin ["a".toList, "b/c".toList] = "a/b/c".toList ∧
    filepathJoin ["a/b".toList, "../../../xyz".toList] = "../xyz".toList ∧
    filepathJoin ["".toList, "x".toList] = "x".toList ∧
    filepathJoin ["".toList, "".toList] = "".toList := by
  decide

/-- The model of `flag.Parse` on typical command lines: flags before the
first positional argument are read, later ones are positional, `--` ends the
flags, and an undefined flag or a malformed value is a failure. -/
theorem flagParse_examples :
    (flagParse ["-h".toList, "a.mp3".toList] Flags.defaults
      = .ok (⟨true, false, false, false⟩, ["a.mp3".toList]) ∧
    flagParse ["--version".toList] Flags.defaults = .ok (⟨false, false, false, true⟩, []) ∧
    flagParse ["a.mp3".toList, "-h".toList] Flags.defaults
      = .ok (⟨false, false, false, false⟩, ["a.mp3".toList, "-h".toList]) ∧
    flagParse ["-h=false".toList, "--".toList, "-x".toList] Flags.defaults
      = .ok (⟨false, false, false, false⟩, ["-x".toList])) ∧
    (flagParse ["-x".toList] Flags.defaults = .error (.notDefined "x".toList) ∧
    flagParse ["-v=maybe".toList] Flags.defaults
      = .error (.invalidBool "maybe".toList "v".toList) ∧
    flagParse ["---v".toList] Flags.defaults = .error (.badSyntax "---v".toList) ∧
    flagParse ["-".toList] Flags.defaults
      = .ok (⟨false, false, false, false⟩, ["-".toList])) := by
  refine ⟨?_, ?_⟩ <;> decide

/-- A complete run: `soundplay ~/sounds/beep.wav` in the sample world. -/
theorem main_wav_run :
    main sampleWorld ["~/sounds/beep.wav".toList] =
      (some 0,
        [Event.callPlay "~/sounds/beep.wav".toList, Event.userHomeDir,
         Event.osOpen "/home/u/sounds/beep.wav".toList,
         Event.callDecode (Reader.file 3) ".wav".toList,
         Event.decoderCall Decoder.wav (DecoderArg.reader (Reader.file 3)),
         Event.speakerInit 44100 4410, Event.speakerPlay (Streamer.mk 1), Event.waitDone,
         Event.streamerClose (Streamer.mk 1)]) := by
  decide

end Soundplay
